import Mathlib

/-!
# binpatch: a verification development of `src/main.cpp`

Shallow embedding of the binary patch utility.

Conventions of the embedding

* a byte (`char`) is a `Nat`; a `std::string`, a `char` buffer and the content of a
  file are a `List Nat`;
* `uint32_t` / `unsigned int` values are `Nat` reduced `% 2 ^ 32`, `uint64_t` values are
  `Nat` reduced `% 2 ^ 64`;
* a run whose behaviour the C++ standard leaves undefined (a read of an uninitialised
  or out-of-bounds object, an uncaught exception) is `none`.
-/

namespace BinPatch

/-! ## Platform constants -/

/-- Width of the C type `unsigned long`, which `<climits>` leaves to the platform:
32 bits (ILP32 and LLP64, e.g. Windows) or 64 bits (LP64, e.g. 64-bit Linux). -/
inductive LongWidth where
  | bits32
  | bits64
deriving DecidableEq, Repr

/-- Number of value bits of `unsigned long`. -/
def LongWidth.bits : LongWidth → Nat
  | .bits32 => 32
  | .bits64 => 64

/-- The macro `ULONG_MAX` of `<climits>`: the largest `unsigned long`. -/
def ULONG_MAX (lw : LongWidth) : Nat := 2 ^ lw.bits - 1

/-- Conversion of a (mathematical) integer to `uint32_t`. -/
def toUInt32 (v : Int) : Nat := (v % 2 ^ 32).toNat

/-! ## `Find_Pattern_In_File` (lines 177-212) -/

/-- The search loop of `Find_Pattern_In_File` (lines 191-205) and what follows it (lines
207-210). The list argument is what `fData` still points at, `i` is the loop index and
`pdata_offs` the running match counter. `pattern` is the initialised part of the buffer
`pattern` points at; reading past it is undefined (`none`). When the data is exhausted
the function calls `delete[] fData` (line 208) on the pointer that `fData++` (line 204)
has advanced `i` times: this is defined only when `i` is 0, that is for an empty file,
and then the function returns `ULONG_MAX` converted to `uint32_t` (line 210); after any
scanned byte the `delete[]` is handed a pointer that `new[]` did not return, which is
undefined (`none`). A match returns from inside the loop, before the `delete[]`. The
index `i` is an `int` in the source; it stays in range for files of fewer than `2 ^ 31`
bytes, which the properties below assume. -/
def Find_Pattern_Loop (lw : LongWidth) (pattern : List Nat) (siz : Nat) (z : Bool) :
    List Nat → Nat → Nat → Option Nat
  | [], i, _ => if i = 0 then some (toUInt32 (ULONG_MAX lw)) else none
  | b :: fData, i, pdata_offs =>
    match pattern[pdata_offs]? with
    | none => none
    | some p =>
      let pdata_offs := if b = p then pdata_offs + 1 else 0
      if pdata_offs = siz then
        if !z then some (toUInt32 ((i : Int) + 1))
        else some (toUInt32 ((i : Int) - (siz : Int) + 1))
      else Find_Pattern_Loop lw pattern siz z fData (i + 1) pdata_offs

/-- `Find_Pattern_In_File` on the content `fData` of an existing file: the whole file is
read into memory and scanned from index 0 with the counter at 0. -/
def Find_Pattern_In_File (lw : LongWidth) (fData : List Nat) (pattern : List Nat)
    (siz : Nat) (z : Bool) : Option Nat :=
  Find_Pattern_Loop lw pattern siz z fData 0 0

/-- The value the last line of `Find_Pattern_In_File` returns (line 210): `ULONG_MAX`
narrowed to the `uint32_t` return type. -/
def NOT_FOUND (lw : LongWidth) : Nat := toUInt32 (ULONG_MAX lw)

/-- One pass of the loop body over the match counter (lines 194-198). -/
def Match_Step (pattern : List Nat) (pdata_offs : Nat) (b : Nat) : Nat :=
  if pattern[pdata_offs]? = some b then pdata_offs + 1 else 0

/-- The match counter `pdata_offs` after the loop has consumed the bytes `scanned`
(without having returned). -/
def Match_Counter (pattern : List Nat) (scanned : List Nat) : Nat :=
  scanned.foldl (Match_Step pattern) 0

/-- The pattern `P` occurs in `buf` starting at byte index `i`. -/
def Occurs_At (buf P : List Nat) (i : Nat) : Prop :=
  (buf.drop i).take P.length = P

instance (buf P : List Nat) (i : Nat) : Decidable (Occurs_At buf P i) := by
  unfold Occurs_At; infer_instance

/-- The first occurrence of `P` in `buf` starts at byte index `i`. -/
def First_Occurrence (buf P : List Nat) (i : Nat) : Prop :=
  Occurs_At buf P i ∧ ∀ j, j < i → ¬ Occurs_At buf P j

instance (buf P : List Nat) (i : Nat) : Decidable (First_Occurrence buf P i) := by
  unfold First_Occurrence; infer_instance

/-- The bytes of an ASCII string literal. -/
def bytes (s : String) : List Nat := s.toList.map Char.toNat

/-! ## `Copy_File` (lines 89-100) -/

/-- The `do … while` loop of `Copy_File`. `fin` is the part of the input stream not yet
read, `fout` the bytes written to the output so far and `fsize` the `unsigned int`
byte counter. Every pass reads at most 1024 bytes, writes them, adds their number to
`fsize`, and the loop ends after the first pass that read nothing. The first argument
bounds the number of passes. -/
def Copy_File_Loop : Nat → List Nat → List Nat → Nat → Option (List Nat × Nat)
  | 0, _, _, _ => none
  | fuel + 1, fin, fout, fsize =>
    let buf := fin.take 1024
    let gcount := buf.length
    let fout := fout ++ buf
    let fsize := (fsize + gcount) % 2 ^ 32
    if gcount > 0 then Copy_File_Loop fuel (fin.drop 1024) fout fsize
    else some (fout, fsize)

/-- `Copy_File`: copies the input stream to the output stream and returns the new output
content together with the byte count. One pass more than there are input bytes always
suffices. -/
def Copy_File (fin fout : List Nat) : Option (List Nat × Nat) :=
  Copy_File_Loop (fin.length + 1) fin fout 0

/-- The output stream after `seekp(pos)` followed by `write(data, data.length)` on a file
whose content is `content`: the bytes at `pos ..` are overwritten; a position past the
end leaves a gap that reads as zero bytes. -/
def Stream_Write_At (content : List Nat) (pos : Nat) (data : List Nat) : List Nat :=
  let padded := content ++ List.replicate (pos - content.length) 0
  padded.take pos ++ data ++ padded.drop (pos + data.length)

/-! ## `Populate_Patch_Data` (lines 110-118) -/

/-- The byte `pget[k]` of the object representation of the `uint64_t` `binarypattern`,
least significant byte first (the source comment: "read out LSB first"). Indices from 8
on lie outside the object. -/
def pget (binarypattern : Nat) (k : Nat) : Option Nat :=
  if k < 8 then some (binarypattern / 256 ^ k % 256) else none

/-- `Populate_Patch_Data`: `buf[c] = pget[patchlen-c-1]` for `c = 0 .. patchlen-1`.
The result is the filled part of `buf`. -/
def Populate_Patch_Data (binarypattern : Nat) (patchlen : Nat) : Option (List Nat) :=
  (List.range patchlen).mapM fun c => pget binarypattern (patchlen - c - 1)

/-! ## `Clean_Hex_String` (lines 126-134) -/

/-- The constant `std::string::npos`, the largest `size_t`. -/
def string_npos : Nat := 2 ^ 64 - 1

/-- `std::string::find(char)`: the index of the first occurrence of `c`, or `npos`. -/
def string_find (s : List Nat) (c : Nat) : Nat :=
  if c ∈ s then s.indexOf c else string_npos

/-- `Clean_Hex_String`: cuts the string after the first `x`, or else after the first
`X`, when that character lies within the first 128 characters. -/
def Clean_Hex_String (s : List Nat) : List Nat :=
  let n := string_find s 'x'.toNat
  let N := string_find s 'X'.toNat
  if n ≥ 0 ∧ n < 128 then s.drop (n + 1)
  else if N ≥ 0 ∧ N < 128 then s.drop (N + 1)
  else s

/-! ## `Parse_ASCIIHex_Param_To_Int` (lines 143-150)

The function inserts the string into a `std::stringstream` whose base field is `hex` and
extracts a `uint64_t`. The extraction itself is the C++ standard library
(`std::num_get`); it is modelled here as the standard describes it. -/

/-- The C locale `isspace`. -/
def isspace (c : Nat) : Bool := c = 32 || (9 ≤ c && c ≤ 13)

/-- The value of a hexadecimal digit character, `none` for any other character. -/
def hexDigitValue (c : Nat) : Option Nat :=
  if 48 ≤ c ∧ c ≤ 57 then some (c - 48)
  else if 97 ≤ c ∧ c ≤ 102 then some (c - 87)
  else if 65 ≤ c ∧ c ≤ 70 then some (c - 55)
  else none

/-- The digit values of the longest run of hexadecimal digits a string starts with. -/
def hexDigitsPrefix : List Nat → List Nat
  | [] => []
  | c :: cs =>
    match hexDigitValue c with
    | some d => d :: hexDigitsPrefix cs
    | none => []

/-- Accumulation of digit values, most significant first. -/
def hexAccumulate (ds : List Nat) : Nat := ds.foldl (fun acc d => acc * 16 + d) 0

/-- The string behind an optional sign character (`-` or `+`). -/
def skipSign (s : List Nat) : List Nat :=
  match s with
  | 45 :: t => t
  | 43 :: t => t
  | _ => s

/-- The string behind an optional `0x` or `0X`. -/
def skipHexPrefix (s : List Nat) : List Nat :=
  match s with
  | 48 :: 120 :: t => t
  | 48 :: 88 :: t => t
  | _ => s

/-- Numeric extraction in base 16 from a string that starts with a non-space character:
an optional sign, an optional `0x` / `0X`, then the longest run of hexadecimal digits.
No digits give 0; a value that does not fit 64 bits gives the largest `uint64_t`; a
minus sign negates modulo `2 ^ 64`. -/
def num_get_hex (s : List Nat) : Nat :=
  let negative := s.head? = some '-'.toNat
  let v := hexAccumulate (hexDigitsPrefix (skipHexPrefix (skipSign s)))
  if v ≥ 2 ^ 64 then 2 ^ 64 - 1
  else if negative then (2 ^ 64 - v) % 2 ^ 64
  else v

/-- `Parse_ASCIIHex_Param_To_Int`. When the string is empty or all white space the
extraction stops before any conversion and `int_out` is returned uninitialised
(`none`). -/
def Parse_ASCIIHex_Param_To_Int (sin : List Nat) : Option Nat :=
  match sin.dropWhile isspace with
  | [] => none
  | c :: cs => some (num_get_hex (c :: cs))

/-! ## `main` (lines 219-472) -/

/-- What one call of `getopt` with the option string `":i:o:a:t:b:B:T:Hh?z"` hands to the
`switch` (lines 252-299): the option letter with its argument. `help` stands for `?`,
`h` and `H`; `other` for a return value no `case` matches. -/
inductive Opt where
  | help
  | i (optarg : List Nat)
  | o (optarg : List Nat)
  | z
  | a (optarg : List Nat)
  | t (optarg : List Nat)
  | b (optarg : List Nat)
  | B (optarg : List Nat)
  | T (optarg : List Nat)
  | other
deriving DecidableEq, Repr

/-- The local variables of `main` that the option loop fills (lines 222-234). -/
structure Args where
  infilename : List Nat
  outfilename : List Nat
  patchstartaddr : List Nat
  binsearchpattern : List Nat
  textsearchpattern : List Nat
  binarypatchpattern : List Nat
  textpatchpattern : List Nat
  searchpatterncnt : Nat
  patchpatterncnt : Nat
  patch_pos : Bool
deriving DecidableEq, Repr

/-- The initial values of the variables (lines 222-234). -/
def Args.init : Args :=
  ⟨[], [], [], [], [], [], [], 0, 0, false⟩

/-- The option loop (lines 238-300). `none` means that help was asked for, upon which
`main` returns 0 at once. -/
def Get_Options : List Opt → Args → Option Args
  | [], st => some st
  | .help :: _, _ => none
  | .i optarg :: rest, st => Get_Options rest { st with infilename := optarg }
  | .o optarg :: rest, st => Get_Options rest { st with outfilename := optarg }
  | .z :: rest, st => Get_Options rest { st with patch_pos := true }
  | .a optarg :: rest, st =>
    Get_Options rest { st with patchstartaddr := optarg, searchpatterncnt := st.searchpatterncnt + 1 }
  | .t optarg :: rest, st =>
    Get_Options rest { st with textsearchpattern := optarg, searchpatterncnt := st.searchpatterncnt + 1 }
  | .b optarg :: rest, st =>
    Get_Options rest { st with binsearchpattern := optarg, searchpatterncnt := st.searchpatterncnt + 1 }
  | .B optarg :: rest, st =>
    Get_Options rest { st with binarypatchpattern := optarg, patchpatterncnt := st.patchpatterncnt + 1 }
  | .T optarg :: rest, st =>
    Get_Options rest { st with textpatchpattern := optarg, patchpatterncnt := st.patchpatterncnt + 1 }
  | .other :: rest, st => Get_Options rest st

/-- What a run leaves behind: the value `main` returns and the content of the output
file, `none` when the run never opened (created) it. -/
structure Result where
  code : Int
  outfile : Option (List Nat)
deriving DecidableEq, Repr

/-- `strcpy(dst, s.c_str())`: the bytes up to the first NUL, and the terminating NUL. The
rest of the destination stays uninitialised. -/
def strcpy (src : List Nat) : List Nat := src.takeWhile (fun c => c ≠ 0) ++ [0]

/-- The state of `startaddr` after the first stage of `main` (lines 331-375). -/
inductive Start_Address where
  | value (startaddr : Nat)
  | indeterminate
  | exit (r : Result)
  | undefined
deriving DecidableEq, Repr

/-- The first stage of `main` (lines 331-375): the patch start address from `-a`, or else
from the text pattern, or else from the binary pattern. `infile` is the content of the
input file, `none` when it cannot be opened. -/
def Resolve_Start (lw : LongWidth) (args : Args) (infile : Option (List Nat)) : Start_Address :=
  if args.patchstartaddr.length > 0 then
    let patchstartaddr := Clean_Hex_String args.patchstartaddr
    match Parse_ASCIIHex_Param_To_Int patchstartaddr with
    | none => .indeterminate
    | some v => .value (v % 2 ^ 32)
  else if args.textsearchpattern.length > 0 then
    let siz := args.textsearchpattern.length
    let pData := strcpy args.textsearchpattern
    match infile with
    | none => .undefined
    | some fData =>
      match Find_Pattern_In_File lw fData pData siz args.patch_pos with
      | none => .undefined
      | some startaddr =>
        if startaddr = ULONG_MAX lw then .exit ⟨-1, none⟩ else .value startaddr
  else if args.binsearchpattern.length > 0 then
    let binsearchpattern := Clean_Hex_String args.binsearchpattern
    let siz := binsearchpattern.length / 2 + binsearchpattern.length % 2
    match (Parse_ASCIIHex_Param_To_Int binsearchpattern).bind
        (fun pattern => Populate_Patch_Data pattern siz), infile with
    | some pData, some fData =>
      match Find_Pattern_In_File lw fData pData siz args.patch_pos with
      | none => .undefined
      | some startaddr =>
        if startaddr = ULONG_MAX lw then .exit ⟨-1, none⟩ else .value startaddr
    | _, _ => .undefined
  else .indeterminate

/-- The file part of both patch cases (lines 397-423 and 439-464, the same code twice):
open the input, create the output, copy, check the bounds, fill `buf`, seek and write
`patchlen` bytes of `buf`. `buf` is the initialised part of the buffer as the case fills
it, `none` when filling it is undefined; it is consulted only after the bounds check.
The output file is a file other than the input file. -/
def Copy_And_Patch (infile : Option (List Nat)) (startaddr patchlen : Nat)
    (buf : Option (List Nat)) : Option Result :=
  match infile with
  | none => some ⟨-1, none⟩
  | some fin =>
    match Copy_File fin [] with
    | none => none
    | some (fout, fsize) =>
      if fsize < (startaddr + patchlen) % 2 ^ 32 then some ⟨-1, some fout⟩
      else
        match buf with
        | none => none
        | some buf =>
          if patchlen ≤ buf.length then
            some ⟨0, some (Stream_Write_At fout startaddr (buf.take patchlen))⟩
          else none

/-- The body of `main` after the option loop (lines 313-471). -/
def Run (lw : LongWidth) (args : Args) (infile : Option (List Nat)) : Option Result :=
  if args.infilename.length = 0 then some ⟨-1, none⟩
  else if args.outfilename.length = 0 then some ⟨-1, none⟩
  else if args.patchpatterncnt = 0 then some ⟨-1, none⟩
  else if args.patchpatterncnt > 1 then some ⟨-1, none⟩
  else if args.searchpatterncnt = 0 then some ⟨-1, none⟩
  else if args.searchpatterncnt > 1 then some ⟨-1, none⟩
  else
    match Resolve_Start lw args infile with
    | .exit r => some r
    | .undefined => none
    | start =>
      if args.textpatchpattern.length > 0 then
        let patchlen := args.textpatchpattern.length
        if patchlen < 1 then some ⟨-1, none⟩
        else if patchlen > 48 then some ⟨-1, none⟩
        else
          match start with
          | .value startaddr =>
            Copy_And_Patch infile startaddr patchlen (some (strcpy args.textpatchpattern))
          | _ => none
      else if args.binarypatchpattern.length > 0 then
        let binarypatchpattern := Clean_Hex_String args.binarypatchpattern
        let binarypattern := Parse_ASCIIHex_Param_To_Int binarypatchpattern
        let patchlen := binarypatchpattern.length / 2 + binarypatchpattern.length % 2
        if patchlen < 1 then some ⟨-1, none⟩
        else
          match start with
          | .value startaddr =>
            Copy_And_Patch infile startaddr patchlen
              (binarypattern.bind fun v => Populate_Patch_Data v patchlen)
          | _ => none
      else some ⟨-1, none⟩

/-- The function `main`: the option loop, then the body. `opts` is the sequence of options
`getopt` delivers and `infile` the content of the file the input name refers to. -/
def main (lw : LongWidth) (opts : List Opt) (infile : Option (List Nat)) : Option Result :=
  match Get_Options opts Args.init with
  | none => some ⟨0, none⟩
  | some args => Run lw args infile

/-! ## Notions used to state the properties -/

/-- What `Find_Pattern_In_File` does after a scan of `n` bytes that completed no match
(lines 207-210): for `n = 0` it returns the not-found value, otherwise the `delete[]` on
the advanced pointer is undefined. -/
def End_Of_Data (lw : LongWidth) (n : Nat) : Option Nat :=
  if n = 0 then some (NOT_FOUND lw) else none

/-- The value the loop returns for a match that ends just before index `e`. -/
def Found_Value (L : Nat) (z : Bool) (e : Nat) : Nat :=
  if !z then toUInt32 (e : Int) else toUInt32 ((e : Int) - (L : Int))

/-- What both binary paths of `main` compute from a cleaned hex string (lines 361-366 and
lines 431-432 with 458): the parsed value, the length `length/2 + length%2`, and the bytes
`Populate_Patch_Data` fills in. -/
def Binary_Bytes (s : List Nat) : Option (List Nat) :=
  (Parse_ASCIIHex_Param_To_Int s).bind fun v =>
    Populate_Patch_Data v (s.length / 2 + s.length % 2)

/-- The binary encoding of a command line argument: `Clean_Hex_String`, then the three
steps of `Binary_Bytes`. -/
def Encode_Binary (s : List Nat) : Option (List Nat) :=
  Binary_Bytes (Clean_Hex_String s)

/-- A string that consists of hexadecimal digits only. -/
def IsHexString (h : List Nat) : Prop := ∀ c ∈ h, (hexDigitValue c).isSome = true

instance (h : List Nat) : Decidable (IsHexString h) := by
  unfold IsHexString; infer_instance

/-- The digit value of a character of a hex string. -/
def digitOf (c : Nat) : Nat := (hexDigitValue c).getD 0

/-- The number that a string of hexadecimal digits denotes. -/
def hexValue (h : List Nat) : Nat := hexAccumulate (h.map digitOf)

/-- The number that a byte sequence denotes, most significant byte first. -/
def bigEndianValue (bs : List Nat) : Nat := bs.foldl (fun acc b => acc * 256 + b) 0

/-- Pairs of nibbles combined into bytes, high nibble first. -/
def pairNibbles : List Nat → List Nat
  | a :: b :: rest => (a * 16 + b) :: pairNibbles rest
  | _ => []

/-- The encoding as the specification words it: the digits, left-padded with a zero
nibble when their number is odd, taken two by two as bytes, most significant first. -/
def Spec_Encode (h : List Nat) : List Nat :=
  let ds := h.map digitOf
  pairNibbles (if ds.length % 2 = 1 then 0 :: ds else ds)

/-- The output `o` is the input `file` except that `v` stands at the indices `pos ..`. -/
def Patched_At (file o : List Nat) (pos : Nat) (v : List Nat) : Prop :=
  o.length = file.length ∧
  (∀ k, k < v.length → o[pos + k]? = v[k]?) ∧
  (∀ j, j < pos ∨ pos + v.length ≤ j → o[j]? = file[j]?)

/-- The bytes at the offset `0x00210B` of the input file of Scenario 5 of the header
documentation (line 66), followed by the eleven zero bytes. -/
def Scenario5_Before : List Nat :=
  [0x00, 0x55, 0xAA, 0x55, 0xAA, 0x55, 0xAA, 0x55] ++ List.replicate 11 0

/-- The bytes at the offset `0x00210B` that the header documentation shows after the
run of Scenario 5 (line 68). -/
def Scenario5_After_Documented : List Nat :=
  [0x00, 0x55, 0xAA, 0x55, 0xAA, 0x55, 0xAA, 0x55,
   0x54, 0x52, 0x45, 0x56, 0x4F, 0x52, 0x20, 0x20, 0x20, 0x20, 0x00]

/-- The bytes at the offset `0x00210B` that the run of Scenario 5 leaves. -/
def Scenario5_After_Run : List Nat :=
  [0x00, 0x55, 0xAA, 0x55, 0xAA, 0x55,
   0x54, 0x52, 0x45, 0x56, 0x4F, 0x52, 0x20, 0x20, 0x20, 0x20, 0x00, 0x00, 0x00]

/-! ## The definitions evaluated on the scenarios of the documentation -/

example : NOT_FOUND .bits32 = 4294967295 := by decide
example : NOT_FOUND .bits64 = 4294967295 := by decide
example : Find_Pattern_In_File .bits64 (bytes "aab") (bytes "ab") 2 false = none := by
  decide
example : Find_Pattern_In_File .bits64 [] (bytes "ab") 2 false = some 4294967295 := by
  decide
example : Find_Pattern_In_File .bits64 (bytes "aabab") (bytes "ab") 2 true = some 3 := by
  decide
example : Find_Pattern_In_File .bits64 (bytes "xxab") (bytes "ab") 2 false = some 4 := by
  decide
example : Find_Pattern_In_File .bits64 (bytes "xxab") (bytes "ab") 2 true = some 2 := by
  decide
example : Clean_Hex_String (bytes "0x1234") = bytes "1234" := by decide
example : Clean_Hex_String (bytes "0X1x2") = bytes "2" := by decide
example : Parse_ASCIIHex_Param_To_Int (bytes "1234") = some 0x1234 := by decide
example : Populate_Patch_Data 0x123 2 = some [1, 0x23] := by decide
example : Populate_Patch_Data 0x123 9 = none := by decide
example : Copy_File (List.replicate 16 0) [] = some (List.replicate 16 0, 16) := by decide
example : main .bits64 [.i (bytes "a"), .o (bytes "b"), .a (bytes "0x4"), .B (bytes "0x0201")]
    (some (List.replicate 16 0)) = some ⟨0, some [0,0,0,0,2,1,0,0,0,0,0,0,0,0,0,0]⟩ := by decide
example : main .bits32 [.i (bytes "a"), .o (bytes "b"), .t (bytes "xyz"), .T (bytes "TREVOR")]
    (some (bytes "abc")) = none := by decide
example : main .bits32 [.i (bytes "a"), .o (bytes "b"), .t (bytes "xyz"), .T (bytes "TREVOR")]
    (some []) = some ⟨-1, none⟩ := by decide
example : main .bits64 [.i (bytes "a"), .o (bytes "b"), .t (bytes "xyz"), .T (bytes "TREVOR")]
    (some []) = some ⟨-1, some []⟩ := by decide
example : Encode_Binary (bytes "123") = some [0x01, 0x23] := by decide
example : Spec_Encode (bytes "123") = [0x01, 0x23] := by decide
example : Encode_Binary (bytes "0x1234") = some [0x12, 0x34] := by decide
example : Encode_Binary (bytes "0x112233445566778899") = none := by decide

/-! ## Properties of `Find_Pattern_In_File` -/

/-- Reading the pattern buffer below `siz` yields the pattern byte. -/
theorem pattern_getElem? (P rest : List Nat) (k : Nat) (hk : k < P.length) :
    (P ++ rest)[k]? = some (P.get ⟨k, hk⟩) := by
  rw [List.getElem?_append_left hk, List.getElem?_eq_getElem hk]
  rfl

/-- One more matched byte extends the matched prefix. -/
theorem take_succ_get (P : List Nat) (k : Nat) (hk : k < P.length) :
    P.take (k + 1) = P.take k ++ [P.get ⟨k, hk⟩] := by
  rw [List.take_succ, List.getElem?_eq_getElem hk]
  rfl

/-- Invariant of the search loop. With `pre` the bytes already consumed and the counter
`k` the length of the pattern prefix that `pre` ends with, the loop over the remaining
bytes `suf` either runs to the end of the data without a match, where only an empty file
yields the not-found value, or returns at the first index `e` at which a full match is
completed. -/
theorem find_loop_spec (lw : LongWidth) (P rest : List Nat) (z : Bool) :
    ∀ (suf pre : List Nat) (k : Nat), k < P.length → P.take k <:+ pre →
      Find_Pattern_Loop lw (P ++ rest) P.length z suf pre.length k
        = End_Of_Data lw (pre.length + suf.length) ∨
      ∃ e, pre.length < e ∧ e ≤ pre.length + suf.length ∧ P <:+ (pre ++ suf).take e ∧
        (e + k = pre.length + P.length ∨ pre.length + 1 + P.length ≤ e) ∧
        Find_Pattern_Loop lw (P ++ rest) P.length z suf pre.length k
          = some (Found_Value P.length z e) := by
  intro suf
  induction suf with
  | nil =>
    intro pre k _ _
    left
    rfl
  | cons b suf ih =>
    intro pre k hk hsuf
    have hlen : (pre ++ [b]).length = pre.length + 1 := by simp
    have hstep : ∀ k2, k2 < P.length → P.take k2 <:+ pre ++ [b] →
        (Find_Pattern_Loop lw (P ++ rest) P.length z suf (pre.length + 1) k2
            = End_Of_Data lw (pre.length + (b :: suf).length) ∨
          ∃ e, pre.length < e ∧ e ≤ pre.length + (b :: suf).length ∧
            P <:+ (pre ++ b :: suf).take e ∧
            (e + k2 = pre.length + 1 + P.length ∨ pre.length + 2 + P.length ≤ e) ∧
            Find_Pattern_Loop lw (P ++ rest) P.length z suf (pre.length + 1) k2
              = some (Found_Value P.length z e)) := by
      intro k2 hk2 hs2
      have h := ih (pre ++ [b]) k2 hk2 hs2
      rw [hlen] at h
      rcases h with h | ⟨e, h1, h2, h3, h5, h4⟩
      · left
        rw [h]
        congr 1
        simp only [List.length_cons]
        omega
      · refine Or.inr ⟨e, by omega, by simp only [List.length_cons]; omega, ?_, by omega, h4⟩
        simpa using h3
    rw [Find_Pattern_Loop, pattern_getElem? P rest k hk]
    simp only []
    by_cases hb : b = P.get ⟨k, hk⟩
    · rw [if_pos hb]
      have hs2 : P.take (k + 1) <:+ pre ++ [b] := by
        rw [take_succ_get P k hk, hb]
        obtain ⟨t, ht⟩ := hsuf
        exact ⟨t, by rw [← ht, List.append_assoc]⟩
      by_cases hfull : k + 1 = P.length
      · rw [if_pos hfull]
        right
        refine ⟨pre.length + 1, by omega, by simp, ?_, by omega, ?_⟩
        · have : (pre ++ b :: suf).take (pre.length + 1) = pre ++ [b] := by
            rw [List.take_append_eq_append_take]
            simp
          rw [this]
          rw [hfull, List.take_length] at hs2
          exact hs2
        · unfold Found_Value
          cases z <;> simp
          congr 1
          omega
      · rw [if_neg hfull]
        rcases hstep (k + 1) (by omega) hs2 with h | ⟨e, h1, h2, h3, h5, h4⟩
        · exact Or.inl h
        · exact Or.inr ⟨e, h1, h2, h3, by omega, h4⟩
    · rw [if_neg hb]
      have h0 : (0 : Nat) ≠ P.length := by omega
      rw [if_neg h0]
      rcases hstep 0 (by omega) (by simp) with h | ⟨e, h1, h2, h3, h5, h4⟩
      · exact Or.inl h
      · exact Or.inr ⟨e, h1, h2, h3, by omega, h4⟩

/-- A full match that ends just before index `e` is an occurrence at `e - L`. -/
theorem occurs_of_suffix_take (buf P : List Nat) (e : Nat) (he : e ≤ buf.length)
    (h : P <:+ buf.take e) : P.length ≤ e ∧ Occurs_At buf P (e - P.length) := by
  obtain ⟨t, ht⟩ := h
  have hl : t.length + P.length = e := by
    have := congrArg List.length ht
    simp at this
    omega
  have hb : buf = t ++ (P ++ buf.drop e) := by
    rw [← List.append_assoc, ht, List.take_append_drop]
  refine ⟨by omega, ?_⟩
  unfold Occurs_At
  have h2 : e - P.length = t.length := by omega
  rw [h2]
  conv => lhs; rw [hb]
  simp

/-- An occurrence at `i` splits the buffer around the pattern. -/
theorem split_of_occurs (buf P : List Nat) (i : Nat) (hP : P ≠ []) (h : Occurs_At buf P i) :
    i + P.length ≤ buf.length ∧ buf = buf.take i ++ (P ++ buf.drop (i + P.length)) := by
  unfold Occurs_At at h
  have hlen : i + P.length ≤ buf.length := by
    have h1 := congrArg List.length h
    simp only [List.length_take, List.length_drop] at h1
    have h2 : 0 < P.length := List.length_pos.mpr hP
    omega
  refine ⟨hlen, ?_⟩
  have h3 : buf.drop i = P ++ buf.drop (i + P.length) := by
    conv => lhs; rw [← List.take_append_drop P.length (buf.drop i)]
    rw [h, List.drop_drop, Nat.add_comm]
  conv => lhs; rw [← List.take_append_drop i buf]
  rw [h3]

/-- Narrowing to `uint32_t` keeps an index below `2 ^ 32`. -/
theorem toUInt32_natCast (e : Nat) (he : e < 2 ^ 32) : toUInt32 (e : Int) = e := by
  unfold toUInt32
  omega

/-- The not-found value is `0xFFFFFFFF` whatever the width of `unsigned long`. -/
theorem NOT_FOUND_eq (lw : LongWidth) : NOT_FOUND lw = 4294967295 := by
  cases lw <;> decide

/-- The value returned for a match in a buffer that an `int` can index. -/
theorem Found_Value_eq (L e : Nat) (z : Bool) (hL : L ≤ e) (he : e < 2 ^ 31) :
    Found_Value L z e = if z then e - L else e := by
  unfold Found_Value toUInt32
  cases z <;> simp <;> omega

/-- Scanning a stretch `xs` in which no full match is completed only moves the counter:
the loop continues behind `xs` with the counter that `Match_Step` computes, and the
invariant of the counter is kept. -/
theorem find_loop_skip (lw : LongWidth) (P rest : List Nat) (z : Bool) (ys : List Nat) :
    ∀ (xs pre : List Nat) (k : Nat), k < P.length → P.take k <:+ pre →
      (∀ e, pre.length < e → e ≤ pre.length + xs.length → ¬ P <:+ (pre ++ xs).take e) →
      Find_Pattern_Loop lw (P ++ rest) P.length z (xs ++ ys) pre.length k
        = Find_Pattern_Loop lw (P ++ rest) P.length z ys (pre.length + xs.length)
            (xs.foldl (Match_Step (P ++ rest)) k) ∧
      xs.foldl (Match_Step (P ++ rest)) k < P.length ∧
      P.take (xs.foldl (Match_Step (P ++ rest)) k) <:+ pre ++ xs := by
  intro xs
  induction xs with
  | nil =>
    intro pre k hk hsuf _
    simpa using ⟨hk, hsuf⟩
  | cons b xs ih =>
    intro pre k hk hsuf hno
    have hlen : (pre ++ [b]).length = pre.length + 1 := by simp
    have hno2 : ∀ e, (pre ++ [b]).length < e → e ≤ (pre ++ [b]).length + xs.length →
        ¬ P <:+ ((pre ++ [b]) ++ xs).take e := by
      intro e h1 h2
      have := hno e (by omega) (by simp only [List.length_cons]; omega)
      simpa using this
    have hnow : ¬ P <:+ pre ++ [b] := by
      have := hno (pre.length + 1) (by omega) (by simp)
      have e : (pre ++ b :: xs).take (pre.length + 1) = pre ++ [b] := by
        rw [List.take_append_eq_append_take]
        simp
      rwa [e] at this
    have hnext : ∀ k2, k2 < P.length → P.take k2 <:+ pre ++ [b] →
        Find_Pattern_Loop lw (P ++ rest) P.length z (xs ++ ys) (pre.length + 1) k2
          = Find_Pattern_Loop lw (P ++ rest) P.length z ys (pre.length + (b :: xs).length)
              (xs.foldl (Match_Step (P ++ rest)) k2) ∧
        xs.foldl (Match_Step (P ++ rest)) k2 < P.length ∧
        P.take (xs.foldl (Match_Step (P ++ rest)) k2) <:+ pre ++ b :: xs := by
      intro k2 hk2 hs2
      have h := ih (pre ++ [b]) k2 hk2 hs2 hno2
      rw [hlen] at h
      have e1 : pre.length + 1 + xs.length = pre.length + (b :: xs).length := by
        simp only [List.length_cons]; omega
      have e2 : pre ++ [b] ++ xs = pre ++ b :: xs := by simp
      rw [e1, e2] at h
      exact h
    rw [List.cons_append, Find_Pattern_Loop, pattern_getElem? P rest k hk, List.foldl_cons]
    simp only []
    unfold Match_Step
    rw [pattern_getElem? P rest k hk]
    by_cases hb : b = P.get ⟨k, hk⟩
    · have hb2 : some (P.get ⟨k, hk⟩) = some b := by rw [hb]
      rw [if_pos hb, if_pos hb2]
      have hs2 : P.take (k + 1) <:+ pre ++ [b] := by
        rw [take_succ_get P k hk, hb]
        obtain ⟨t, ht⟩ := hsuf
        exact ⟨t, by rw [← ht, List.append_assoc]⟩
      have hfull : k + 1 ≠ P.length := by
        intro hfull
        rw [hfull, List.take_length] at hs2
        exact hnow hs2
      rw [if_neg hfull]
      exact hnext (k + 1) (by omega) hs2
    · have hb2 : ¬ some (P.get ⟨k, hk⟩) = some b := by
        intro h
        exact hb (Option.some.inj h).symm
      rw [if_neg hb, if_neg hb2]
      have h0 : (0 : Nat) ≠ P.length := by omega
      rw [if_neg h0]
      exact hnext 0 (by omega) (by simp)

/-- From the counter `k`, with the rest of the pattern next in the data, the loop
completes the match: it returns at the end of the pattern. -/
theorem find_loop_match (lw : LongWidth) (P rest post : List Nat) (z : Bool) :
    ∀ (n k i : Nat), k + n = P.length → 0 < n →
      Find_Pattern_Loop lw (P ++ rest) P.length z (P.drop k ++ post) i k
        = some (Found_Value P.length z (i + n)) := by
  intro n
  induction n with
  | zero => intro k i _ h; omega
  | succ n ih =>
    intro k i hkn _
    have hk : k < P.length := by omega
    have hdrop : P.drop k = P.get ⟨k, hk⟩ :: P.drop (k + 1) := by
      rw [List.drop_eq_getElem_cons hk]
      rfl
    rw [hdrop, List.cons_append, Find_Pattern_Loop, pattern_getElem? P rest k hk]
    simp only [if_true]
    by_cases hfull : k + 1 = P.length
    · rw [if_pos hfull]
      have hn : n = 0 := by omega
      subst hn
      unfold Found_Value
      cases z <;> simp
      congr 1
      omega
    · rw [if_neg hfull]
      have := ih (k + 1) (i + 1) (by omega) (by omega)
      rw [this]
      congr 2
      omega

/-- Before the first occurrence no full match is completed. -/
theorem no_match_before_first (buf P : List Nat) (i : Nat) (hP : P ≠ [])
    (hfirst : First_Occurrence buf P i) :
    ∀ e, e ≤ i → ¬ P <:+ buf.take e := by
  intro e he hsuf
  have hi := (split_of_occurs buf P i hP hfirst.1).1
  have h := occurs_of_suffix_take buf P e (by omega) hsuf
  have hpos : 0 < P.length := List.length_pos.mpr hP
  exact hfirst.2 (e - P.length) (by omega) h.2

/-- The scan up to the first occurrence: the loop reaches index `i` with the counter
`Match_Counter` computes. -/
theorem find_reaches_first (lw : LongWidth) (buf P rest : List Nat) (i : Nat) (z : Bool)
    (hP : P ≠ []) (hfirst : First_Occurrence buf P i) :
    Find_Pattern_In_File lw buf (P ++ rest) P.length z
      = Find_Pattern_Loop lw (P ++ rest) P.length z (P ++ buf.drop (i + P.length)) i
          (Match_Counter (P ++ rest) (buf.take i)) ∧
    Match_Counter (P ++ rest) (buf.take i) < P.length ∧
    P.take (Match_Counter (P ++ rest) (buf.take i)) <:+ buf.take i := by
  have hsplit := split_of_occurs buf P i hP hfirst.1
  have hpos : 0 < P.length := List.length_pos.mpr hP
  have hti : (buf.take i).length = i := by
    rw [List.length_take]; omega
  have hno := no_match_before_first buf P i hP hfirst
  have h := find_loop_skip lw P rest z (P ++ buf.drop (i + P.length)) (buf.take i) [] 0 hpos
    (by simp) (by
      intro e _ he
      simp only [List.nil_append]
      rw [hti] at he
      have := hno e (by simpa using he)
      rw [List.take_take]
      rwa [Nat.min_eq_left (by simpa using he)])
  simp only [List.nil_append, List.length_nil, Nat.zero_add, hti] at h
  unfold Find_Pattern_In_File Match_Counter
  refine ⟨?_, h.2⟩
  rw [← h.1, ← hsplit.2]

/-- The first occurrence is found when it is reached with the counter at zero. -/
theorem find_at_first (lw : LongWidth) (buf P rest : List Nat) (i : Nat) (z : Bool)
    (hP : P ≠ []) (hbuf : buf.length < 2 ^ 31) (hfirst : First_Occurrence buf P i)
    (hk : Match_Counter (P ++ rest) (buf.take i) = 0) :
    Find_Pattern_In_File lw buf (P ++ rest) P.length z
      = some (if z then i else i + P.length) := by
  have hsplit := split_of_occurs buf P i hP hfirst.1
  have hpos : 0 < P.length := List.length_pos.mpr hP
  have hm := find_loop_match lw P rest (buf.drop (i + P.length)) z P.length 0 i (by omega) hpos
  rw [List.drop_zero] at hm
  rw [(find_reaches_first lw buf P rest i z hP hfirst).1, hk, hm,
    Found_Value_eq P.length _ z (by omega) (by omega)]
  cases z <;> simp

/-- The scan of a whole file: either it ends without a match, or it returns for a match
that ends just before an index `e` inside the file. -/
theorem find_cases (lw : LongWidth) (buf P rest : List Nat) (z : Bool) (hP : P ≠ []) :
    Find_Pattern_In_File lw buf (P ++ rest) P.length z = End_Of_Data lw buf.length ∨
    ∃ e, e ≤ buf.length ∧ P <:+ buf.take e ∧
      Find_Pattern_In_File lw buf (P ++ rest) P.length z
        = some (Found_Value P.length z e) := by
  have hpos : 0 < P.length := List.length_pos.mpr hP
  rcases find_loop_spec lw P rest z buf [] 0 hpos (by simp) with h | ⟨e, _, h2, h3, _, h4⟩
  · left
    simp only [List.length_nil, Nat.zero_add] at h
    exact h
  · exact Or.inr ⟨e, by simpa using h2, by simpa using h3, h4⟩

/-- On an empty file the function returns the not-found value. -/
theorem find_empty (lw : LongWidth) (pattern : List Nat) (siz : Nat) (z : Bool) :
    Find_Pattern_In_File lw [] pattern siz z = some (NOT_FOUND lw) := rfl

/-- On a non-empty file in which the pattern occurs nowhere the scan runs to the end of
the data, and the `delete[]` on the advanced pointer leaves the call undefined. -/
theorem find_absent (lw : LongWidth) (buf P rest : List Nat) (z : Bool) (hP : P ≠ [])
    (hbuf : buf ≠ []) (hno : ∀ i, ¬ Occurs_At buf P i) :
    Find_Pattern_In_File lw buf (P ++ rest) P.length z = none := by
  have hlen : buf.length ≠ 0 := fun h => hbuf (List.length_eq_zero.mp h)
  rcases find_cases lw buf P rest z hP with h | ⟨e, h1, h2, _⟩
  · rw [h]
    unfold End_Of_Data
    rw [if_neg hlen]
  · exact absurd (occurs_of_suffix_take buf P e h1 h2).2 (hno _)

/-- A value that the function returns for a match with `z` false is the end of an
occurrence of the pattern inside the file. -/
theorem find_found_sound (lw : LongWidth) (buf P rest : List Nat) (r : Nat) (hP : P ≠ [])
    (hbuf : buf.length < 2 ^ 31)
    (hr : Find_Pattern_In_File lw buf (P ++ rest) P.length false = some r)
    (hne : r ≠ NOT_FOUND lw) :
    P.length ≤ r ∧ r ≤ buf.length ∧ (buf.drop (r - P.length)).take P.length = P := by
  rcases find_cases lw buf P rest false hP with h | ⟨e, h1, h2, h3⟩
  · rw [h] at hr
    unfold End_Of_Data at hr
    split_ifs at hr
    exact absurd (Option.some.inj hr).symm hne
  · have hocc := occurs_of_suffix_take buf P e h1 h2
    rw [h3, Found_Value_eq P.length e false hocc.1 (by omega)] at hr
    have hre : e = r := by simpa using hr
    subst hre
    exact ⟨hocc.1, h1, hocc.2⟩

/-- On a non-empty file the function never returns the not-found value: it returns the
position of a match or its behaviour is undefined. -/
theorem find_not_found_only_empty (lw : LongWidth) (buf P rest : List Nat) (z : Bool)
    (hP : P ≠ []) (hbuf : buf ≠ []) (hsize : buf.length < 2 ^ 31) :
    Find_Pattern_In_File lw buf (P ++ rest) P.length z ≠ some (NOT_FOUND lw) := by
  have hlen : buf.length ≠ 0 := fun h => hbuf (List.length_eq_zero.mp h)
  rcases find_cases lw buf P rest z hP with h | ⟨e, h1, h2, h3⟩
  · rw [h]
    unfold End_Of_Data
    rw [if_neg hlen]
    exact fun h => nomatch h
  · have hocc := occurs_of_suffix_take buf P e h1 h2
    rw [h3, Found_Value_eq P.length e z hocc.1 (by omega), NOT_FOUND_eq]
    intro h
    have := Option.some.inj h
    cases z <;> simp at this <;> omega

/-- An occurrence of a non-empty pattern starts inside the buffer. -/
theorem occurs_lt (buf P : List Nat) (i : Nat) (hP : P ≠ []) (h : Occurs_At buf P i) :
    i < buf.length := by
  have := (split_of_occurs buf P i hP h).1
  have hpos : 0 < P.length := List.length_pos.mpr hP
  omega

/-! ## Claims about `Find_Pattern_In_File` -/

/-- C1, counterexample. In the buffer "aabab" the first occurrence of "ab" starts at
index 1, so that the results should be 1 with `z` true and 3 with `z` false; yet
`Find_Pattern_In_File` returns 3 and 5, the second occurrence, on either width of
`unsigned long`: the second `a` is consumed by the failed comparison with `b` and is not
compared with the first pattern byte again. -/
theorem Find_Pattern_In_File_misses_first :
    First_Occurrence (bytes "aabab") (bytes "ab") 1 ∧
    Find_Pattern_In_File .bits32 (bytes "aabab") (bytes "ab") 2 true = some 3 ∧
    Find_Pattern_In_File .bits32 (bytes "aabab") (bytes "ab") 2 false = some 5 ∧
    Find_Pattern_In_File .bits64 (bytes "aabab") (bytes "ab") 2 true = some 3 ∧
    Find_Pattern_In_File .bits64 (bytes "aabab") (bytes "ab") 2 false = some 5 := by
  decide

/-- C1, amended. For a buffer an `int` can index (fewer than `2 ^ 31` bytes) and a
non-empty pattern `P` of length `L` whose first occurrence starts at index `i`,
`Find_Pattern_In_File` returns `i` with `z` true and `i + L` with `z` false exactly when
the match counter is zero after the first `i` bytes, that is when no partial match begun
earlier is in progress at index `i`. `rest` is whatever follows the pattern in its
buffer (the terminating NUL of a text pattern). -/
theorem Find_Pattern_In_File_first_occurrence (lw : LongWidth) (buf P rest : List Nat)
    (i : Nat) (hP : P ≠ []) (hbuf : buf.length < 2 ^ 31)
    (hfirst : First_Occurrence buf P i) :
    (Find_Pattern_In_File lw buf (P ++ rest) P.length true = some i ∧
      Find_Pattern_In_File lw buf (P ++ rest) P.length false = some (i + P.length)) ↔
    Match_Counter (P ++ rest) (buf.take i) = 0 := by
  have hsplit := split_of_occurs buf P i hP hfirst.1
  have hpos : 0 < P.length := List.length_pos.mpr hP
  have hti : (buf.take i).length = i := by
    rw [List.length_take]; omega
  constructor
  · intro hres
    by_contra hk
    obtain ⟨hreach, hlt, hsuf⟩ := find_reaches_first lw buf P rest i false hP hfirst
    have hspec := find_loop_spec lw P rest false (P ++ buf.drop (i + P.length)) (buf.take i)
      (Match_Counter (P ++ rest) (buf.take i)) hlt hsuf
    rw [hti, ← hreach, hres.2] at hspec
    rcases hspec with h | ⟨e, h1, h2, h3, h5, h4⟩
    · unfold End_Of_Data at h
      split_ifs at h
      rw [NOT_FOUND_eq] at h
      have := Option.some.inj h
      omega
    · have hlen : (P ++ buf.drop (i + P.length)).length = buf.length - i := by
        simp only [List.length_append, List.length_drop]; omega
      rw [hlen] at h2
      have hLe : P.length ≤ e := by
        rw [← hsplit.2] at h3
        exact (occurs_of_suffix_take buf P e (by omega) h3).1
      rw [Found_Value_eq P.length e false hLe (by omega)] at h4
      have := Option.some.inj h4
      simp at this
      omega
  · intro hk
    rw [find_at_first lw buf P rest i true hP hbuf hfirst hk,
      find_at_first lw buf P rest i false hP hbuf hfirst hk]
    simp

/-- C1, amended, at "xxab" and "ab": the first occurrence is at index 2, the counter is
0 there, and the results are 2 and 4. -/
theorem Find_Pattern_In_File_first_occurrence_witness :
    First_Occurrence (bytes "xxab") (bytes "ab") 2 ∧
    Find_Pattern_In_File .bits64 (bytes "xxab") (bytes "ab" ++ [0]) (bytes "ab").length true
      = some 2 ∧
    Find_Pattern_In_File .bits64 (bytes "xxab") (bytes "ab" ++ [0]) (bytes "ab").length false
      = some (2 + (bytes "ab").length) :=
  ⟨by decide,
    (Find_Pattern_In_File_first_occurrence .bits64 (bytes "xxab") (bytes "ab") [0] 2
      (by decide) (by decide) (by decide)).mpr (by decide)⟩

/-- C2, the failing input: the buffer "abc" and the pattern "xyz", which occurs nowhere
in it. The scan consumes the three bytes without a match; the function then calls
`delete[] fData` on the pointer that the loop has advanced three times (lines 204 and
208), which is undefined, so that the not-found value of line 210 is not returned, in
either anchor mode and on either width of `unsigned long`. Only for the empty buffer,
where the pointer was never advanced, the function returns the not-found value. -/
theorem Find_Pattern_In_File_absent_undefined :
    (∀ i, ¬ Occurs_At (bytes "abc") (bytes "xyz") i) ∧
    Find_Pattern_In_File .bits32 (bytes "abc") (strcpy (bytes "xyz")) 3 true = none ∧
    Find_Pattern_In_File .bits32 (bytes "abc") (strcpy (bytes "xyz")) 3 false = none ∧
    Find_Pattern_In_File .bits64 (bytes "abc") (strcpy (bytes "xyz")) 3 true = none ∧
    Find_Pattern_In_File .bits64 (bytes "abc") (strcpy (bytes "xyz")) 3 false = none ∧
    Find_Pattern_In_File .bits32 [] (strcpy (bytes "xyz")) 3 false = some (NOT_FOUND .bits32) ∧
    Find_Pattern_In_File .bits64 [] (strcpy (bytes "xyz")) 3 false
      = some (NOT_FOUND .bits64) := by
  refine ⟨?_, by decide, by decide, by decide, by decide, by decide, by decide⟩
  intro i h
  have hi := occurs_lt (bytes "abc") (bytes "xyz") i (by decide) h
  have hall : ∀ j, j < (bytes "abc").length → ¬ Occurs_At (bytes "abc") (bytes "xyz") j := by
    decide
  exact hall i hi h

/-! ## Properties of `Copy_File` and of the patch write -/

/-- With more passes allowed than there are input bytes the copy loop ends: it has
appended all input bytes, in order, and added their number to the counter. -/
theorem Copy_File_Loop_eq :
    ∀ (fuel : Nat) (fin fout : List Nat) (fsize : Nat), fin.length < fuel →
      Copy_File_Loop fuel fin fout fsize
        = some (fout ++ fin, (fsize + fin.length) % 2 ^ 32) := by
  intro fuel
  induction fuel with
  | zero => intro fin fout fsize h; omega
  | succ fuel ih =>
    intro fin fout fsize h
    rw [Copy_File_Loop]
    by_cases hnil : fin = []
    · subst hnil
      simp
    · have hpos : 0 < fin.length := List.length_pos.mpr hnil
      have hg : (fin.take 1024).length > 0 := by
        rw [List.length_take]; omega
      rw [if_pos hg, ih (fin.drop 1024) _ _ (by rw [List.length_drop]; omega)]
      rw [List.append_assoc, List.take_append_drop]
      congr 2
      rw [List.length_take, List.length_drop]
      omega

/-- `Copy_File` into a fresh output returns: the output is the input, byte for byte, and
the count is the input length modulo `2 ^ 32`. -/
theorem Copy_File_eq (fin : List Nat) :
    Copy_File fin [] = some (fin, fin.length % 2 ^ 32) := by
  unfold Copy_File
  rw [Copy_File_Loop_eq (fin.length + 1) fin [] 0 (by omega)]
  simp

/-- A write that lies inside the file keeps the file length. -/
theorem Stream_Write_At_length (content data : List Nat) (pos : Nat)
    (h : pos + data.length ≤ content.length) :
    (Stream_Write_At content pos data).length = content.length := by
  unfold Stream_Write_At
  have h0 : pos - content.length = 0 := by omega
  simp only [h0, List.replicate_zero, List.append_nil, List.length_append, List.length_take,
    List.length_drop]
  omega

/-- A write that lies inside the file puts the data at `pos ..`. -/
theorem Stream_Write_At_inside (content data : List Nat) (pos k : Nat)
    (h : pos + data.length ≤ content.length) (hk : k < data.length) :
    (Stream_Write_At content pos data)[pos + k]? = data[k]? := by
  unfold Stream_Write_At
  have h0 : pos - content.length = 0 := by omega
  simp only [h0, List.replicate_zero, List.append_nil]
  have hl : (content.take pos).length = pos := by
    rw [List.length_take]; omega
  rw [List.append_assoc, List.getElem?_append_right (by omega), hl,
    List.getElem?_append_left (by omega)]
  congr 1
  omega

/-- A write that lies inside the file leaves every byte outside `pos ..` as it was. -/
theorem Stream_Write_At_outside (content data : List Nat) (pos j : Nat)
    (h : pos + data.length ≤ content.length) (hj : j < pos ∨ pos + data.length ≤ j) :
    (Stream_Write_At content pos data)[j]? = content[j]? := by
  unfold Stream_Write_At
  have h0 : pos - content.length = 0 := by omega
  simp only [h0, List.replicate_zero, List.append_nil]
  have hl : (content.take pos).length = pos := by
    rw [List.length_take]; omega
  rcases hj with hj | hj
  · rw [List.append_assoc, List.getElem?_append_left (by omega), List.getElem?_take_of_lt hj]
  · rw [List.getElem?_append_right (by simp only [List.length_append]; omega)]
    simp only [List.length_append, hl, List.getElem?_drop]
    congr 1
    omega

/-- A write past the end extends the file up to the end of the written data. -/
theorem Stream_Write_At_length_beyond (content data : List Nat) (pos : Nat)
    (h : content.length ≤ pos) :
    (Stream_Write_At content pos data).length = pos + data.length := by
  unfold Stream_Write_At
  simp only [List.length_append, List.length_take, List.length_drop, List.length_replicate]
  omega

/-- The file part of a patch case on an existing input file, with the copy carried out. -/
theorem Copy_And_Patch_eq (fin : List Nat) (startaddr patchlen : Nat)
    (buf : Option (List Nat)) :
    Copy_And_Patch (some fin) startaddr patchlen buf =
      if fin.length % 2 ^ 32 < (startaddr + patchlen) % 2 ^ 32 then some ⟨-1, some fin⟩
      else
        match buf with
        | none => none
        | some buf =>
          if patchlen ≤ buf.length then
            some ⟨0, some (Stream_Write_At fin startaddr (buf.take patchlen))⟩
          else none := by
  unfold Copy_And_Patch
  simp only [Copy_File_eq]

/-! ## Claims about the copy and the patch write -/

/-- C3. For every input file content `fin`, every offset `startaddr` and every payload
(of any length, so also of 1..48 bytes) with `startaddr + payload.length ≤ fin.length`:
a run that returns 0 leaves an output file of the same length as the input, whose bytes
at `startaddr ..` are the payload and whose other bytes are the input bytes; and for an
input below `2 ^ 32` bytes the run does return 0. `extra` is what the buffer holds behind
the payload (the NUL that `strcpy` adds). -/
theorem Copy_And_Patch_frame (fin payload extra : List Nat) (startaddr : Nat)
    (hfit : startaddr + payload.length ≤ fin.length) :
    (fin.length < 2 ^ 32 →
      (Copy_And_Patch (some fin) startaddr payload.length (some (payload ++ extra))).map
        Result.code = some 0) ∧
    ∀ r, Copy_And_Patch (some fin) startaddr payload.length (some (payload ++ extra)) = some r →
      r.code = 0 →
      ∃ out, r.outfile = some out ∧ out.length = fin.length ∧
        (∀ k, k < payload.length → out[startaddr + k]? = payload[k]?) ∧
        (∀ j, j < startaddr ∨ startaddr + payload.length ≤ j → out[j]? = fin[j]?) := by
  rw [Copy_And_Patch_eq]
  have hle : payload.length ≤ (payload ++ extra).length := by simp
  have htake : (payload ++ extra).take payload.length = payload := by simp
  simp only [if_pos hle, htake]
  constructor
  · intro hsize
    have hmod : (startaddr + payload.length) % 2 ^ 32 = startaddr + payload.length :=
      Nat.mod_eq_of_lt (by omega)
    have hmod2 : fin.length % 2 ^ 32 = fin.length := Nat.mod_eq_of_lt hsize
    rw [hmod, hmod2, if_neg (by omega)]
    rfl
  · intro r hr hcode
    by_cases hc : fin.length % 2 ^ 32 < (startaddr + payload.length) % 2 ^ 32
    · rw [if_pos hc] at hr
      have := Option.some.inj hr
      subst this
      simp at hcode
    · rw [if_neg hc] at hr
      have := Option.some.inj hr
      subst this
      exact ⟨_, rfl, Stream_Write_At_length fin payload startaddr hfit,
        fun k hk => Stream_Write_At_inside fin payload startaddr k hfit hk,
        fun j hj => Stream_Write_At_outside fin payload startaddr j hfit hj⟩

/-- C3 at its scenario: a 16-byte all-zero input, `-a0x4`, `-B0x0201`. The run of `main`
is the patch of the payload `02 01` at offset 4, it returns 0, and the output is the
input except for the bytes 4 and 5. -/
theorem Copy_And_Patch_frame_witness :
    main .bits64 [.i (bytes "in.bin"), .o (bytes "out.bin"), .a (bytes "0x4"),
        .B (bytes "0x0201")] (some (List.replicate 16 0))
      = Copy_And_Patch (some (List.replicate 16 0)) 4 [2, 1].length (some ([2, 1] ++ [])) ∧
    Copy_And_Patch (some (List.replicate 16 0)) 4 [2, 1].length (some ([2, 1] ++ []))
      = some ⟨0, some [0, 0, 0, 0, 2, 1, 0, 0, 0, 0, 0, 0, 0, 0, 0, 0]⟩ ∧
    ((List.replicate 16 0).length < 2 ^ 32 →
      (Copy_And_Patch (some (List.replicate 16 0)) 4 [2, 1].length (some ([2, 1] ++ []))).map
        Result.code = some 0) ∧
    ∀ r, Copy_And_Patch (some (List.replicate 16 0)) 4 [2, 1].length (some ([2, 1] ++ []))
        = some r →
      r.code = 0 →
      ∃ out, r.outfile = some out ∧ out.length = (List.replicate 16 0).length ∧
        (∀ k, k < [2, 1].length → out[4 + k]? = [2, 1][k]?) ∧
        (∀ j, j < 4 ∨ 4 + [2, 1].length ≤ j → out[j]? = (List.replicate 16 0)[j]?) :=
  ⟨by decide, by decide, Copy_And_Patch_frame (List.replicate 16 0) [2, 1] [] 4 (by decide)⟩

/-- C4, the failing input: a 16-byte input file, `-a0xFFFFFFFF` and `-TAB`. The sum
`startaddr + patchlen` is formed in 32 bits and wraps to 1, the check `16 < 1` does not
fire, and the two bytes are written at offset `0xFFFFFFFF`: the run returns 0 and
leaves an output file of `2 ^ 32 + 1` bytes, although `0xFFFFFFFF + 2 > 16`. -/
theorem main_bounds_check_wraps :
    main .bits64 [.i (bytes "in.bin"), .o (bytes "out.bin"), .a (bytes "0xFFFFFFFF"),
        .T (bytes "AB")] (some (List.replicate 16 0))
      = some ⟨0, some (Stream_Write_At (List.replicate 16 0) 4294967295 (bytes "AB"))⟩ ∧
    (Stream_Write_At (List.replicate 16 0) 4294967295 (bytes "AB")).length = 2 ^ 32 + 1 ∧
    ¬ (4294967295 + (bytes "AB").length ≤ (List.replicate 16 0).length) := by
  refine ⟨?_, ?_, by decide⟩
  · rfl
  · rw [Stream_Write_At_length_beyond _ _ _ (by decide)]
    decide

/-- C8. For every input file below `2 ^ 32` bytes, every offset, length and buffer for
which the bounds check of the code fails: `Copy_File` returns, having written every input
byte in order and counted the input's length; the run returns -1; and the output file
is the input, byte for byte, with no payload byte written. -/
theorem Copy_And_Patch_out_of_bounds (fin : List Nat) (startaddr patchlen : Nat)
    (buf : Option (List Nat)) (hsize : fin.length < 2 ^ 32)
    (hcheck : fin.length < (startaddr + patchlen) % 2 ^ 32) :
    Copy_File fin [] = some (fin, fin.length) ∧
    Copy_And_Patch (some fin) startaddr patchlen buf = some ⟨-1, some fin⟩ := by
  have hmod : fin.length % 2 ^ 32 = fin.length := Nat.mod_eq_of_lt hsize
  rw [Copy_And_Patch_eq, Copy_File_eq, hmod, if_pos hcheck]
  exact ⟨rfl, rfl⟩

/-- C8 at a 16-byte input with `-a0xF` and a payload of two bytes: `15 + 2 > 16`. -/
theorem Copy_And_Patch_out_of_bounds_witness :
    Copy_File (List.replicate 16 0) [] = some (List.replicate 16 0, (List.replicate 16 0).length) ∧
    Copy_And_Patch (some (List.replicate 16 0)) 15 2 (some [2, 1])
      = some ⟨-1, some (List.replicate 16 0)⟩ :=
  Copy_And_Patch_out_of_bounds (List.replicate 16 0) 15 2 (some [2, 1]) (by decide) (by decide)

/-! ## Properties of the binary encoding path -/

theorem hexDigitValue_lt (c d : Nat) (h : hexDigitValue c = some d) : d < 16 := by
  unfold hexDigitValue at h
  split_ifs at h <;> simp at h <;> omega

theorem digitOf_lt (c : Nat) : digitOf c < 16 := by
  unfold digitOf
  cases h : hexDigitValue c with
  | none => simp
  | some d => simpa using hexDigitValue_lt c d h

/-- On a hex string the run of digits is the whole string. -/
theorem hexDigitsPrefix_of_hex (h : List Nat) (hh : IsHexString h) :
    hexDigitsPrefix h = h.map digitOf := by
  induction h with
  | nil => rfl
  | cons c cs ih =>
    have hc := hh c (List.mem_cons_self c cs)
    have hcs : IsHexString cs := fun x hx => hh x (List.mem_cons_of_mem c hx)
    obtain ⟨d, hd⟩ := Option.isSome_iff_exists.mp hc
    simp [hexDigitsPrefix, hd, ih hcs, digitOf]

/-- Horner accumulation stays below the next power of 16. -/
theorem foldl16_lt (ds : List Nat) (hds : ∀ d ∈ ds, d < 16) :
    ∀ acc, ds.foldl (fun acc d => acc * 16 + d) acc < (acc + 1) * 16 ^ ds.length := by
  induction ds with
  | nil => intro acc; simp
  | cons d ds ih =>
    intro acc
    have hd := hds d (List.mem_cons_self d ds)
    have := ih (fun x hx => hds x (List.mem_cons_of_mem d hx)) (acc * 16 + d)
    rw [List.foldl_cons, List.length_cons, pow_succ]
    calc List.foldl (fun acc d => acc * 16 + d) (acc * 16 + d) ds
        < (acc * 16 + d + 1) * 16 ^ ds.length := this
      _ ≤ ((acc + 1) * 16) * 16 ^ ds.length := Nat.mul_le_mul_right _ (by omega)
      _ = (acc + 1) * (16 ^ ds.length * 16) := by ring

/-- The value of a hex string of `n` digits is below `16 ^ n`. -/
theorem hexValue_lt (h : List Nat) : hexValue h < 16 ^ h.length := by
  unfold hexValue hexAccumulate
  have := foldl16_lt (h.map digitOf) (by
    intro d hd
    obtain ⟨c, _, rfl⟩ := List.mem_map.mp hd
    exact digitOf_lt c) 0
  simpa using this

/-- A hex digit is neither white space, nor a sign, nor `x` or `X`. -/
theorem hex_char_plain (c : Nat) (hc : (hexDigitValue c).isSome = true) :
    isspace c = false ∧ c ≠ 45 ∧ c ≠ 43 ∧ c ≠ 120 ∧ c ≠ 88 := by
  unfold hexDigitValue at hc
  unfold isspace
  split_ifs at hc <;> simp at hc <;> simp <;> omega

/-- `Parse_ASCIIHex_Param_To_Int` on 1..16 hex digits returns the number they denote. -/
theorem Parse_hex (h : List Nat) (hh : IsHexString h) (h1 : h ≠ []) (h16 : h.length ≤ 16) :
    Parse_ASCIIHex_Param_To_Int h = some (hexValue h) := by
  have hv : hexValue h < 2 ^ 64 := by
    calc hexValue h < 16 ^ h.length := hexValue_lt h
      _ ≤ 16 ^ 16 := Nat.pow_le_pow_right (by omega) h16
      _ = 2 ^ 64 := by norm_num
  cases h with
  | nil => exact absurd rfl h1
  | cons c cs =>
    have hc := hex_char_plain c (hh c (List.mem_cons_self c cs))
    have hpre := hexDigitsPrefix_of_hex (c :: cs) hh
    have hx : ∀ t, cs ≠ 120 :: t := by
      intro t ht
      have := hh 120 (by rw [ht]; simp)
      simp [hexDigitValue] at this
    have hX : ∀ t, cs ≠ 88 :: t := by
      intro t ht
      have := hh 88 (by rw [ht]; simp)
      simp [hexDigitValue] at this
    unfold Parse_ASCIIHex_Param_To_Int
    rw [List.dropWhile_cons_of_neg (by simp [hc.1])]
    have hs1 : skipSign (c :: cs) = c :: cs := by
      unfold skipSign
      split
      · next t heq => exact absurd (List.cons.inj heq).1 hc.2.1
      · next t heq => exact absurd (List.cons.inj heq).1 hc.2.2.1
      · rfl
    have hs2 : skipHexPrefix (c :: cs) = c :: cs := by
      unfold skipHexPrefix
      split
      · next t heq => exact absurd (List.cons.inj heq).2 (hx t)
      · next t heq => exact absurd (List.cons.inj heq).2 (hX t)
      · rfl
    have hneg : ¬ ((c :: cs).head? = some '-'.toNat) := by
      simp only [List.head?_cons, Option.some.injEq]
      exact hc.2.1
    have hv2 : ¬ (hexAccumulate ((c :: cs).map digitOf) ≥ 2 ^ 64) := by
      unfold hexValue at hv
      omega
    simp only [num_get_hex, hs1, hs2, hpre, if_neg hv2, if_neg hneg]
    rfl

/-- Reading only inside the 8 bytes of the value, the fill loop yields the bytes. -/
theorem mapM_pget (v L : Nat) (hL : L ≤ 8) :
    ∀ cs : List Nat, cs.mapM (fun c => pget v (L - c - 1))
      = some (cs.map fun c => v / 256 ^ (L - c - 1) % 256) := by
  intro cs
  induction cs with
  | nil => rfl
  | cons c cs ih =>
    have hc : L - c - 1 < 8 := by omega
    rw [List.mapM_cons, ih]
    simp [pget, hc]

/-- `Populate_Patch_Data` with a length of at most 8 returns the `patchlen` low bytes of
the value, most significant first. -/
theorem Populate_Patch_Data_eq (v L : Nat) (hL : L ≤ 8) :
    Populate_Patch_Data v L = some ((List.range L).map fun c => v / 256 ^ (L - c - 1) % 256) :=
  mapM_pget v L hL (List.range L)

/-- `Populate_Patch_Data` with a length above 8 reads outside the value. -/
theorem Populate_Patch_Data_none (v L : Nat) (hL : 8 < L) : Populate_Patch_Data v L = none := by
  unfold Populate_Patch_Data
  obtain ⟨m, rfl⟩ : ∃ m, L = m + 1 := ⟨L - 1, by omega⟩
  rw [List.range_succ_eq_map, List.mapM_cons]
  have hm : pget v (m + 1 - 0 - 1) = none := by
    unfold pget
    rw [if_neg (by omega)]
  rw [hm]
  rfl

theorem foldl256_acc (xs : List Nat) :
    ∀ acc, xs.foldl (fun acc b => acc * 256 + b) acc
      = acc * 256 ^ xs.length + xs.foldl (fun acc b => acc * 256 + b) 0 := by
  induction xs with
  | nil => intro acc; simp
  | cons x xs ih =>
    intro acc
    rw [List.foldl_cons, List.foldl_cons, ih (acc * 256 + x), ih (0 * 256 + x),
      List.length_cons, pow_succ]
    ring

theorem bigEndianValue_cons (x : Nat) (xs : List Nat) :
    bigEndianValue (x :: xs) = x * 256 ^ xs.length + bigEndianValue xs := by
  unfold bigEndianValue
  rw [List.foldl_cons, foldl256_acc]
  simp

theorem bigEndianValue_lt (xs : List Nat) (hxs : ∀ x ∈ xs, x < 256) :
    bigEndianValue xs < 256 ^ xs.length := by
  induction xs with
  | nil => simp [bigEndianValue]
  | cons x xs ih =>
    have hx := hxs x (List.mem_cons_self x xs)
    have := ih (fun y hy => hxs y (List.mem_cons_of_mem x hy))
    rw [bigEndianValue_cons, List.length_cons, pow_succ]
    calc x * 256 ^ xs.length + bigEndianValue xs
        < x * 256 ^ xs.length + 256 ^ xs.length := by omega
      _ = (x + 1) * 256 ^ xs.length := by ring
      _ ≤ 256 * 256 ^ xs.length := Nat.mul_le_mul_right _ (by omega)
      _ = 256 ^ xs.length * 256 := by ring

/-- Byte sequences of one length that denote the same number are equal. -/
theorem bigEndianValue_inj :
    ∀ xs ys : List Nat, xs.length = ys.length → (∀ x ∈ xs, x < 256) → (∀ y ∈ ys, y < 256) →
      bigEndianValue xs = bigEndianValue ys → xs = ys := by
  intro xs
  induction xs with
  | nil =>
    intro ys hl _ _ _
    exact (List.length_eq_zero.mp hl.symm).symm
  | cons x xs ih =>
    intro ys hl hxs hys hv
    cases ys with
    | nil => simp at hl
    | cons y ys =>
      have hl2 : xs.length = ys.length := by simpa using hl
      have hxs2 : ∀ a ∈ xs, a < 256 := fun a ha => hxs a (List.mem_cons_of_mem x ha)
      have hys2 : ∀ a ∈ ys, a < 256 := fun a ha => hys a (List.mem_cons_of_mem y ha)
      have bx := bigEndianValue_lt xs hxs2
      have bY := bigEndianValue_lt ys hys2
      rw [bigEndianValue_cons, bigEndianValue_cons, hl2] at hv
      rw [hl2] at bx
      have hpos : 0 < 256 ^ ys.length := Nat.pow_pos (by omega)
      have hdiv := congrArg (fun t => t / 256 ^ ys.length) hv
      simp only [] at hdiv
      rw [Nat.add_comm, Nat.add_mul_div_right _ _ hpos, Nat.div_eq_of_lt bx,
        Nat.add_comm (y * _), Nat.add_mul_div_right _ _ hpos, Nat.div_eq_of_lt bY] at hdiv
      have hxy : x = y := by omega
      subst hxy
      have hrest : bigEndianValue xs = bigEndianValue ys := by omega
      rw [ih ys hl2 hxs2 hys2 hrest]

/-- The bytes `Populate_Patch_Data` fills in denote the value modulo `256 ^ patchlen`. -/
theorem bigEndianValue_populate (v : Nat) :
    ∀ L, bigEndianValue ((List.range L).map fun c => v / 256 ^ (L - c - 1) % 256)
      = v % 256 ^ L := by
  intro L
  induction L with
  | zero => simp [bigEndianValue, Nat.mod_one]
  | succ L ih =>
    rw [List.range_succ_eq_map, List.map_cons, List.map_map, bigEndianValue_cons]
    have hf : ((fun c => v / 256 ^ (L + 1 - c - 1) % 256) ∘ Nat.succ)
        = fun c => v / 256 ^ (L - c - 1) % 256 := by
      funext c
      simp only [Function.comp, Nat.succ_eq_add_one]
      congr 3
      omega
    rw [hf, ih]
    simp only [List.length_map, List.length_range, Nat.sub_zero, Nat.add_sub_cancel]
    rw [Nat.mod_pow_succ]
    ring

theorem pairNibbles_length : ∀ (n : Nat) (ds : List Nat), ds.length = 2 * n →
    (pairNibbles ds).length = n := by
  intro n
  induction n with
  | zero =>
    intro ds h
    have : ds = [] := List.length_eq_zero.mp (by omega)
    subst this
    rfl
  | succ n ih =>
    intro ds h
    match ds, h with
    | a :: b :: rest, h =>
      simp only [pairNibbles, List.length_cons]
      rw [ih rest (by simp only [List.length_cons] at h; omega)]

theorem pairNibbles_lt : ∀ (n : Nat) (ds : List Nat), ds.length = 2 * n →
    (∀ d ∈ ds, d < 16) → ∀ b ∈ pairNibbles ds, b < 256 := by
  intro n
  induction n with
  | zero =>
    intro ds h _ b hb
    have : ds = [] := List.length_eq_zero.mp (by omega)
    subst this
    simp [pairNibbles] at hb
  | succ n ih =>
    intro ds h hds b hb
    match ds, h, hds, hb with
    | a :: b2 :: rest, h, hds, hb =>
      simp only [pairNibbles, List.mem_cons] at hb
      have ha : a < 16 := hds a (by simp)
      have hb2 : b2 < 16 := hds b2 (by simp)
      rcases hb with hb | hb
      · omega
      · exact ih rest (by simp only [List.length_cons] at h; omega)
          (fun d hd => hds d (by simp [hd])) b hb

theorem pairNibbles_foldl : ∀ (n : Nat) (ds : List Nat), ds.length = 2 * n →
    ∀ acc, (pairNibbles ds).foldl (fun acc b => acc * 256 + b) acc
      = ds.foldl (fun acc d => acc * 16 + d) acc := by
  intro n
  induction n with
  | zero =>
    intro ds h acc
    have : ds = [] := List.length_eq_zero.mp (by omega)
    subst this
    rfl
  | succ n ih =>
    intro ds h acc
    match ds, h with
    | a :: b :: rest, h =>
      simp only [pairNibbles, List.foldl_cons]
      rw [ih rest (by simp only [List.length_cons] at h; omega)]
      congr 1
      ring

/-- The specified encoding has `ceil(n / 2)` bytes, each below 256, and denotes the
number the digits denote. -/
theorem Spec_Encode_props (h : List Nat) :
    (Spec_Encode h).length = h.length / 2 + h.length % 2 ∧
    (∀ b ∈ Spec_Encode h, b < 256) ∧
    bigEndianValue (Spec_Encode h) = hexValue h := by
  have hds : ∀ d ∈ h.map digitOf, d < 16 := by
    intro d hd
    obtain ⟨c, _, rfl⟩ := List.mem_map.mp hd
    exact digitOf_lt c
  unfold Spec_Encode
  simp only [List.length_map]
  by_cases hodd : h.length % 2 = 1
  · rw [if_pos hodd]
    have hl : (0 :: h.map digitOf).length = 2 * (h.length / 2 + h.length % 2) := by
      simp only [List.length_cons, List.length_map]; omega
    have hds0 : ∀ d ∈ 0 :: h.map digitOf, d < 16 := by
      intro d hd
      rcases List.mem_cons.mp hd with hd | hd
      · omega
      · exact hds d hd
    refine ⟨pairNibbles_length _ _ hl, pairNibbles_lt _ _ hl hds0, ?_⟩
    unfold bigEndianValue hexValue hexAccumulate
    rw [pairNibbles_foldl _ _ hl]
    simp
  · rw [if_neg hodd]
    have hl : (h.map digitOf).length = 2 * (h.length / 2 + h.length % 2) := by
      simp only [List.length_map]; omega
    refine ⟨pairNibbles_length _ _ hl, pairNibbles_lt _ _ hl hds, ?_⟩
    unfold bigEndianValue hexValue hexAccumulate
    rw [pairNibbles_foldl _ _ hl]

/-- A hex string holds neither `x` nor `X`. -/
theorem hex_no_x (h : List Nat) (hh : IsHexString h) : 120 ∉ h ∧ 88 ∉ h := by
  constructor
  · intro hm
    have := hh 120 hm
    simp [hexDigitValue] at this
  · intro hm
    have := hh 88 hm
    simp [hexDigitValue] at this

/-- `Clean_Hex_String` leaves a hex string as it is. -/
theorem Clean_Hex_String_hex (h : List Nat) (hh : IsHexString h) : Clean_Hex_String h = h := by
  have hx := hex_no_x h hh
  have hn : ('x').toNat = 120 := by decide
  have hN : ('X').toNat = 88 := by decide
  unfold Clean_Hex_String string_find
  rw [hn, hN, if_neg hx.1, if_neg hx.2]
  simp [string_npos]

/-- `Clean_Hex_String` removes a leading `0x` from a hex string. -/
theorem Clean_Hex_String_0x (h : List Nat) : Clean_Hex_String (48 :: 120 :: h) = h := by
  have hn : ('x').toNat = 120 := by decide
  unfold Clean_Hex_String string_find
  rw [hn]
  simp [List.indexOf_cons]

/-- `Clean_Hex_String` removes a leading `0X` from a hex string. -/
theorem Clean_Hex_String_0X (h : List Nat) (hh : IsHexString h) :
    Clean_Hex_String (48 :: 88 :: h) = h := by
  have hx := hex_no_x h hh
  have hn : ('x').toNat = 120 := by decide
  have hN : ('X').toNat = 88 := by decide
  unfold Clean_Hex_String string_find
  rw [hn, hN]
  have h1 : 120 ∉ 48 :: 88 :: h := by simp [hx.1]
  rw [if_neg h1]
  simp [List.indexOf_cons, string_npos]

/-- The encoding of 1..16 hex digits is the specified one. -/
theorem Binary_Bytes_hex (h : List Nat) (hh : IsHexString h) (h1 : 1 ≤ h.length)
    (h16 : h.length ≤ 16) : Binary_Bytes h = some (Spec_Encode h) := by
  have hne : h ≠ [] := by
    intro hnil
    rw [hnil] at h1
    simp at h1
  have hL : h.length / 2 + h.length % 2 ≤ 8 := by omega
  obtain ⟨hslen, hsb, hsv⟩ := Spec_Encode_props h
  unfold Binary_Bytes
  rw [Parse_hex h hh hne h16, Option.some_bind, Populate_Patch_Data_eq _ _ hL]
  congr 1
  apply bigEndianValue_inj
  · rw [hslen]; simp
  · intro x hx
    obtain ⟨c, _, rfl⟩ := List.mem_map.mp hx
    exact Nat.mod_lt _ (by omega)
  · exact hsb
  · rw [bigEndianValue_populate, hsv]
    apply Nat.mod_eq_of_lt
    calc hexValue h < 16 ^ h.length := hexValue_lt h
      _ ≤ 16 ^ (2 * (h.length / 2 + h.length % 2)) :=
          Nat.pow_le_pow_right (by omega) (by omega)
      _ = 256 ^ (h.length / 2 + h.length % 2) := by
          rw [pow_mul]
          norm_num

/-! ## Claims about the binary encoding -/

/-- C5. For every string `h` of `n` hex digits, `1 ≤ n ≤ 16`, the binary value path
(`Parse_ASCIIHex_Param_To_Int`, the length `n/2 + n%2`, `Populate_Patch_Data`) yields
exactly `ceil(n/2)` bytes, which are the digits, left-padded with a zero nibble when `n`
is odd, taken two by two with the most significant byte first; these bytes are the
big-endian representation of the number `h` denotes. -/
theorem Binary_Bytes_big_endian (h : List Nat) (hh : IsHexString h) (h1 : 1 ≤ h.length)
    (h16 : h.length ≤ 16) :
    Binary_Bytes h = some (Spec_Encode h) ∧
    (Spec_Encode h).length = (h.length + 1) / 2 ∧
    (∀ b ∈ Spec_Encode h, b < 256) ∧
    bigEndianValue (Spec_Encode h) = hexValue h := by
  obtain ⟨hslen, hsb, hsv⟩ := Spec_Encode_props h
  refine ⟨Binary_Bytes_hex h hh h1 h16, ?_, hsb, hsv⟩
  rw [hslen]
  omega

/-- C5 at "123", which gives `01 23`; "0201" gives `02 01`. -/
theorem Binary_Bytes_big_endian_witness :
    Spec_Encode (bytes "123") = [0x01, 0x23] ∧ hexValue (bytes "123") = 0x123 ∧
    Binary_Bytes (bytes "0201") = some [0x02, 0x01] ∧
    (Binary_Bytes (bytes "123") = some (Spec_Encode (bytes "123")) ∧
      (Spec_Encode (bytes "123")).length = ((bytes "123").length + 1) / 2 ∧
      (∀ b ∈ Spec_Encode (bytes "123"), b < 256) ∧
      bigEndianValue (Spec_Encode (bytes "123")) = hexValue (bytes "123")) :=
  ⟨by decide, by decide, by decide,
    Binary_Bytes_big_endian (bytes "123") (by decide) (by decide) (by decide)⟩

/-- C6. For every string `h` of 1..16 hex digits, encoding `0x` followed by `h`, `0X`
followed by `h`, and `h` alone (`Clean_Hex_String`, `Parse_ASCIIHex_Param_To_Int`,
`Populate_Patch_Data` with the length `ceil(len/2)`) produce one and the same byte
sequence. -/
theorem Encode_Binary_prefix (h : List Nat) (hh : IsHexString h) (h1 : 1 ≤ h.length)
    (h16 : h.length ≤ 16) :
    ∃ bs, Encode_Binary (bytes "0x" ++ h) = some bs ∧
      Encode_Binary (bytes "0X" ++ h) = some bs ∧
      Encode_Binary h = some bs := by
  have e1 : bytes "0x" ++ h = 48 :: 120 :: h := rfl
  have e2 : bytes "0X" ++ h = 48 :: 88 :: h := rfl
  refine ⟨Spec_Encode h, ?_, ?_, ?_⟩
  · unfold Encode_Binary
    rw [e1, Clean_Hex_String_0x]
    exact Binary_Bytes_hex h hh h1 h16
  · unfold Encode_Binary
    rw [e2, Clean_Hex_String_0X h hh]
    exact Binary_Bytes_hex h hh h1 h16
  · unfold Encode_Binary
    rw [Clean_Hex_String_hex h hh]
    exact Binary_Bytes_hex h hh h1 h16

/-- C6 at "1234": "0x1234" and "1234" both give `12 34`. -/
theorem Encode_Binary_prefix_witness :
    Encode_Binary (bytes "0x1234") = some [0x12, 0x34] ∧
    Encode_Binary (bytes "1234") = some [0x12, 0x34] ∧
    ∃ bs, Encode_Binary (bytes "0x" ++ bytes "1234") = some bs ∧
      Encode_Binary (bytes "0X" ++ bytes "1234") = some bs ∧
      Encode_Binary (bytes "1234") = some bs :=
  ⟨by decide, by decide,
    Encode_Binary_prefix (bytes "1234") (by decide) (by decide) (by decide)⟩

/-- C9, the failing inputs. The patch value `-B0x112233445566778899` has 18 digits, so
`patchlen` is 9; nothing caps it, `Populate_Patch_Data` is called with 9 and reads
`pget[8]`, outside the 8 bytes of the value, whatever the value is; the run of `main` is
undefined. The search pattern `-b0x` is empty after cleaning, so `siz` is 0. -/
theorem binary_length_not_capped :
    (Clean_Hex_String (bytes "0x112233445566778899")).length / 2
      + (Clean_Hex_String (bytes "0x112233445566778899")).length % 2 = 9 ∧
    (∀ v, Populate_Patch_Data v 9 = none) ∧
    main .bits64 [.i (bytes "in.bin"), .o (bytes "out.bin"), .a (bytes "0x0"),
      .B (bytes "0x112233445566778899")] (some (List.replicate 16 0)) = none ∧
    (Clean_Hex_String (bytes "0x")).length / 2 + (Clean_Hex_String (bytes "0x")).length % 2 = 0 :=
  ⟨by decide, fun v => Populate_Patch_Data_none v 9 (by decide), by decide, by decide⟩

/-! ## Runs with a text marker and a text value -/

/-- `strcpy` of a string without a NUL byte copies the whole string. -/
theorem strcpy_of_no_nul (s : List Nat) (h : ∀ c ∈ s, c ≠ 0) : strcpy s = s ++ [0] := by
  unfold strcpy
  rw [List.takeWhile_eq_self_iff.mpr (by simpa using h)]

/-- The option loop on `-i inn -o out -t t -T v`, with `-z` last when `z` is set. -/
theorem Get_Options_text (inn out t v : List Nat) (z : Bool) :
    Get_Options (.i inn :: .o out :: .t t :: .T v :: (if z then [.z] else [])) Args.init
      = some ⟨inn, out, [], [], t, [], v, 1, 1, z⟩ := by
  cases z <;> rfl

/-- The body of `main` for a text marker `t` and a text value `v`: the result of the
search decides between the early exit and the patch at the address found. -/
theorem Run_text_text (lw : LongWidth) (inn out t v file : List Nat) (z : Bool)
    (hin : inn ≠ []) (hout : out ≠ []) (ht : t ≠ []) (hv : v ≠ []) (hv48 : v.length ≤ 48)
    (ht0 : ∀ c ∈ t, c ≠ 0) (hv0 : ∀ c ∈ v, c ≠ 0) :
    Run lw ⟨inn, out, [], [], t, [], v, 1, 1, z⟩ (some file) =
      match Find_Pattern_In_File lw file (t ++ [0]) t.length z with
      | none => none
      | some r =>
        if r = ULONG_MAX lw then some ⟨-1, none⟩
        else Copy_And_Patch (some file) r v.length (some (v ++ [0])) := by
  have hin2 : inn.length ≠ 0 := fun h => hin (List.length_eq_zero.mp h)
  have hout2 : out.length ≠ 0 := fun h => hout (List.length_eq_zero.mp h)
  have ht2 : 0 < t.length := List.length_pos.mpr ht
  have hv2 : 0 < v.length := List.length_pos.mpr hv
  have hv3 : ¬ (v.length < 1) := by omega
  have hv4 : ¬ (v.length > 48) := by omega
  unfold Run Resolve_Start
  simp only [if_neg hin2, if_neg hout2, List.length_nil, gt_iff_lt, Nat.lt_irrefl, if_false,
    if_pos ht2, if_pos hv2, strcpy_of_no_nul t ht0, strcpy_of_no_nul v hv0,
    Nat.one_ne_zero]
  cases hF : Find_Pattern_In_File lw file (t ++ [0]) t.length z with
  | none => simp
  | some r =>
    by_cases hr : r = ULONG_MAX lw
    · simp [hr]
    · simp [hr, hv3, hv4]

/-- A write inside the file yields the file patched at the position. -/
theorem Patched_At_write (file v : List Nat) (pos : Nat) (h : pos + v.length ≤ file.length) :
    Patched_At file (Stream_Write_At file pos v) pos v :=
  ⟨Stream_Write_At_length file v pos h,
    fun k hk => Stream_Write_At_inside file v pos k h hk,
    fun j hj => Stream_Write_At_outside file v pos j h hj⟩

/-- The file part of a patch case when the target range lies inside a file below
`2 ^ 32` bytes: the run returns 0 and the payload is written at the offset. -/
theorem Copy_And_Patch_inside (file v extra : List Nat) (startaddr : Nat)
    (hsize : file.length < 2 ^ 32) (hfit : startaddr + v.length ≤ file.length) :
    Copy_And_Patch (some file) startaddr v.length (some (v ++ extra))
      = some ⟨0, some (Stream_Write_At file startaddr v)⟩ := by
  have hmod : (startaddr + v.length) % 2 ^ 32 = startaddr + v.length :=
    Nat.mod_eq_of_lt (by omega)
  have hmod2 : file.length % 2 ^ 32 = file.length := Nat.mod_eq_of_lt hsize
  have hle : v.length ≤ (v ++ extra).length := by simp
  rw [Copy_And_Patch_eq, hmod, hmod2, if_neg (by omega)]
  simp

theorem ULONG_MAX_ge (lw : LongWidth) : 4294967295 ≤ ULONG_MAX lw := by
  cases lw <;> decide

/-- A run with a text marker that occurs nowhere in a non-empty input file: the search
runs into the `delete[]` on the advanced pointer, so the run is undefined before `main`
gets to compare anything with `ULONG_MAX`, on either width of `unsigned long`. -/
theorem main_text_marker_absent (lw : LongWidth) (inn out t v file : List Nat) (z : Bool)
    (hin : inn ≠ []) (hout : out ≠ []) (ht : t ≠ []) (hv : v ≠ []) (hv48 : v.length ≤ 48)
    (ht0 : ∀ c ∈ t, c ≠ 0) (hv0 : ∀ c ∈ v, c ≠ 0) (hfile : file ≠ [])
    (hno : ∀ i, ¬ Occurs_At file t i) :
    main lw (.i inn :: .o out :: .t t :: .T v :: (if z then [.z] else [])) (some file)
      = none := by
  unfold main
  simp only [Get_Options_text]
  rw [Run_text_text lw inn out t v file z hin hout ht hv hv48 ht0 hv0,
    find_absent lw file t [0] z ht hfile hno]

/-- A run with a text marker on an empty input file, the one case in which the search
returns the not-found value. Where `unsigned long` has 32 bits the comparison with
`ULONG_MAX` detects it and `main` returns -1 without opening the output. Where it has 64
bits the comparison of the 32-bit `startaddr` with `ULONG_MAX` is never true, and the run
goes on to the patch stage with the start address `0xFFFFFFFF`. -/
theorem main_text_marker_empty_file (inn out t v : List Nat) (z : Bool)
    (hin : inn ≠ []) (hout : out ≠ []) (ht : t ≠ []) (hv : v ≠ []) (hv48 : v.length ≤ 48)
    (ht0 : ∀ c ∈ t, c ≠ 0) (hv0 : ∀ c ∈ v, c ≠ 0) :
    main .bits32 (.i inn :: .o out :: .t t :: .T v :: (if z then [.z] else [])) (some [])
      = some ⟨-1, none⟩ ∧
    main .bits64 (.i inn :: .o out :: .t t :: .T v :: (if z then [.z] else [])) (some [])
      = Copy_And_Patch (some []) 4294967295 v.length (some (v ++ [0])) := by
  unfold main
  simp only [Get_Options_text]
  rw [Run_text_text .bits32 inn out t v [] z hin hout ht hv hv48 ht0 hv0,
    Run_text_text .bits64 inn out t v [] z hin hout ht hv hv48 ht0 hv0,
    find_empty, find_empty]
  constructor
  · rfl
  · rfl

/-! ## Claims about runs with a text marker -/

/-- C7, the failing inputs. First, the input file "abc" with the marker `-txyz`, which
occurs nowhere in it: `Find_Pattern_In_File` scans the three bytes and then calls
`delete[] fData` on the advanced pointer (lines 204 and 208), which is undefined, so that
the run never gets to report "Pattern not found" and to return -1, on either width of
`unsigned long`. Second, the empty input file, for which `Find_Pattern_In_File` does
return `0xFFFFFFFF`: where `unsigned long` has 64 bits, `startaddr == ULONG_MAX` compares
it with `2 ^ 64 - 1` and is false; with `-TTREVOR` the run creates the output file and
fails on the bounds check, with `-TA` it returns 0 and writes `A` at offset `0xFFFFFFFF`.
Only the empty file where `unsigned long` has 32 bits gives -1 without an output file. -/
theorem main_not_found_undetected :
    (∀ i, ¬ Occurs_At (bytes "abc") (bytes "xyz") i) ∧
    Find_Pattern_In_File .bits32 (bytes "abc") (strcpy (bytes "xyz")) 3 false = none ∧
    Find_Pattern_In_File .bits64 (bytes "abc") (strcpy (bytes "xyz")) 3 false = none ∧
    main .bits32 [.i (bytes "in.bin"), .o (bytes "out.bin"), .t (bytes "xyz"),
        .T (bytes "TREVOR")] (some (bytes "abc")) = none ∧
    main .bits64 [.i (bytes "in.bin"), .o (bytes "out.bin"), .t (bytes "xyz"),
        .T (bytes "TREVOR")] (some (bytes "abc")) = none ∧
    Find_Pattern_In_File .bits64 [] (strcpy (bytes "xyz")) 3 false = some 4294967295 ∧
    main .bits64 [.i (bytes "in.bin"), .o (bytes "out.bin"), .t (bytes "xyz"),
        .T (bytes "TREVOR")] (some [])
      = some ⟨-1, some []⟩ ∧
    main .bits64 [.i (bytes "in.bin"), .o (bytes "out.bin"), .t (bytes "xyz"),
        .T (bytes "A")] (some [])
      = some ⟨0, some (Stream_Write_At [] 4294967295 (bytes "A"))⟩ ∧
    main .bits32 [.i (bytes "in.bin"), .o (bytes "out.bin"), .t (bytes "xyz"),
        .T (bytes "TREVOR")] (some [])
      = some ⟨-1, none⟩ := by
  refine ⟨?_, by decide, by decide, by decide, by decide, by decide, by decide, rfl,
    by decide⟩
  intro i h
  have hi := occurs_lt (bytes "abc") (bytes "xyz") i (by decide) h
  have hall : ∀ j, j < (bytes "abc").length → ¬ Occurs_At (bytes "abc") (bytes "xyz") j := by
    decide
  exact hall i hi h

/-- C10, counterexample. In the file "aabab" the first occurrence of the marker "ab"
starts at index 1. With `-z` the value "Z" must go to index 1 ("aZbab"), but the run
writes it at index 3 ("aabZb"); without `-z` it must go to index 3, where it fits, but the
run takes 5 as the start address and fails on the bounds check. Both widths of
`unsigned long` behave alike. -/
theorem main_text_marker_misses_first :
    First_Occurrence (bytes "aabab") (bytes "ab") 1 ∧
    Stream_Write_At (bytes "aabab") 1 (bytes "Z") = bytes "aZbab" ∧
    main .bits32 [.i (bytes "in.bin"), .o (bytes "out.bin"), .t (bytes "ab"), .T (bytes "Z"),
        .z] (some (bytes "aabab")) = some ⟨0, some (bytes "aabZb")⟩ ∧
    main .bits64 [.i (bytes "in.bin"), .o (bytes "out.bin"), .t (bytes "ab"), .T (bytes "Z"),
        .z] (some (bytes "aabab")) = some ⟨0, some (bytes "aabZb")⟩ ∧
    main .bits32 [.i (bytes "in.bin"), .o (bytes "out.bin"), .t (bytes "ab"), .T (bytes "Z")]
        (some (bytes "aabab")) = some ⟨-1, some (bytes "aabab")⟩ ∧
    main .bits64 [.i (bytes "in.bin"), .o (bytes "out.bin"), .t (bytes "ab"), .T (bytes "Z")]
        (some (bytes "aabab")) = some ⟨-1, some (bytes "aabab")⟩ := by
  decide

/-- C10, amended. For every input file of fewer than `2 ^ 31` bytes, every text marker
`t` (non-empty, no NUL byte) whose first occurrence in the file starts at index `i` and
is reached with the match counter at zero, and every text value `v` (1..48 bytes, no NUL
byte): if `v` fits at `i + len(t)`, the run without `-z` returns 0 and its output is the
input except that `v` stands at `i + len(t) ..`; if `v` fits at `i`, the run with `-z`
returns 0 and its output is the input except that `v` stands at `i ..`. -/
theorem main_text_marker_patch (lw : LongWidth) (inn out t v file : List Nat) (i : Nat)
    (hin : inn ≠ []) (hout : out ≠ []) (ht : t ≠ []) (hv : v ≠ []) (hv48 : v.length ≤ 48)
    (ht0 : ∀ c ∈ t, c ≠ 0) (hv0 : ∀ c ∈ v, c ≠ 0) (hfile : file.length < 2 ^ 31)
    (hfirst : First_Occurrence file t i)
    (hk : Match_Counter (strcpy t) (file.take i) = 0) :
    (i + t.length + v.length ≤ file.length →
      ∃ o, main lw [.i inn, .o out, .t t, .T v] (some file) = some ⟨0, some o⟩ ∧
        Patched_At file o (i + t.length) v) ∧
    (i + v.length ≤ file.length →
      ∃ o, main lw [.i inn, .o out, .t t, .T v, .z] (some file) = some ⟨0, some o⟩ ∧
        Patched_At file o i v) := by
  rw [strcpy_of_no_nul t ht0] at hk
  have hU := ULONG_MAX_ge lw
  have hm : ∀ z, main lw (.i inn :: .o out :: .t t :: .T v :: (if z then [.z] else []))
      (some file) = Run lw ⟨inn, out, [], [], t, [], v, 1, 1, z⟩ (some file) := by
    intro z
    unfold main
    rw [Get_Options_text]
  have hocc := (split_of_occurs file t i ht hfirst.1).1
  constructor
  · intro hfit
    have h := hm false
    simp only [Bool.false_eq_true, if_false] at h
    rw [h, Run_text_text lw inn out t v file false hin hout ht hv hv48 ht0 hv0,
      find_at_first lw file t [0] i false ht hfile hfirst hk]
    simp only [Bool.false_eq_true, if_false]
    rw [if_neg (by omega), Copy_And_Patch_inside file v [0] _ (by omega) hfit]
    exact ⟨_, rfl, Patched_At_write file v _ hfit⟩
  · intro hfit
    have h := hm true
    simp only [if_true] at h
    rw [h, Run_text_text lw inn out t v file true hin hout ht hv hv48 ht0 hv0,
      find_at_first lw file t [0] i true ht hfile hfirst hk]
    simp only [if_true]
    rw [if_neg (by omega), Copy_And_Patch_inside file v [0] _ (by omega) hfit]
    exact ⟨_, rfl, Patched_At_write file v _ hfit⟩

/-- C10, amended, at its scenario: "USERNAME:" at index 10 and the value "TREVOR"
without `-z` put "TREVOR" at the indices 19..24. -/
theorem main_text_marker_patch_witness :
    main .bits64 [.i (bytes "in.bin"), .o (bytes "out.bin"), .t (bytes "USERNAME:"),
        .T (bytes "TREVOR")]
        (some (List.replicate 10 0 ++ bytes "USERNAME:" ++ List.replicate 8 0))
      = some ⟨0, some (List.replicate 10 0 ++ bytes "USERNAME:" ++ bytes "TREVOR" ++ [0, 0])⟩ ∧
    ((10 + (bytes "USERNAME:").length + (bytes "TREVOR").length
        ≤ (List.replicate 10 0 ++ bytes "USERNAME:" ++ List.replicate 8 0).length →
      ∃ o, main .bits64 [.i (bytes "in.bin"), .o (bytes "out.bin"), .t (bytes "USERNAME:"),
          .T (bytes "TREVOR")]
          (some (List.replicate 10 0 ++ bytes "USERNAME:" ++ List.replicate 8 0))
          = some ⟨0, some o⟩ ∧
        Patched_At (List.replicate 10 0 ++ bytes "USERNAME:" ++ List.replicate 8 0) o
          (10 + (bytes "USERNAME:").length) (bytes "TREVOR")) ∧
    (10 + (bytes "TREVOR").length
        ≤ (List.replicate 10 0 ++ bytes "USERNAME:" ++ List.replicate 8 0).length →
      ∃ o, main .bits64 [.i (bytes "in.bin"), .o (bytes "out.bin"), .t (bytes "USERNAME:"),
          .T (bytes "TREVOR"), .z]
          (some (List.replicate 10 0 ++ bytes "USERNAME:" ++ List.replicate 8 0))
          = some ⟨0, some o⟩ ∧
        Patched_At (List.replicate 10 0 ++ bytes "USERNAME:" ++ List.replicate 8 0) o
          10 (bytes "TREVOR"))) :=
  ⟨by decide,
    main_text_marker_patch .bits64 (bytes "in.bin") (bytes "out.bin") (bytes "USERNAME:")
      (bytes "TREVOR") (List.replicate 10 0 ++ bytes "USERNAME:" ++ List.replicate 8 0) 10
      (by decide) (by decide) (by decide) (by decide) (by decide) (by decide) (by decide)
      (by decide) (by decide) (by decide)⟩

/-! ## The shape of a run -/

/-- The first stage leaves `main` only with the value -1 and without an output file. -/
theorem Resolve_Start_exit (lw : LongWidth) (args : Args) (infile : Option (List Nat))
    (r : Result) (h : Resolve_Start lw args infile = .exit r) : r = ⟨-1, none⟩ := by
  unfold Resolve_Start at h
  split_ifs at h
  · cases hp : Parse_ASCIIHex_Param_To_Int (Clean_Hex_String args.patchstartaddr) <;>
      simp [hp] at h
  · cases infile with
    | none => simp at h
    | some fData =>
      simp only [] at h
      cases hf : Find_Pattern_In_File lw fData (strcpy args.textsearchpattern)
          args.textsearchpattern.length args.patch_pos with
      | none => simp [hf] at h
      | some startaddr =>
        simp only [hf] at h
        split_ifs at h
        exact (Start_Address.exit.inj h).symm
  · dsimp only at h
    split at h
    · split at h
      · cases h
      · split_ifs at h
        exact (Start_Address.exit.inj h).symm
    · cases h

/-- Every run either is undefined, or returns -1 without having opened the output file,
or is the file part of a patch case at some start address with some buffer. -/
theorem Run_cases (lw : LongWidth) (args : Args) (infile : Option (List Nat)) :
    Run lw args infile = none ∨ Run lw args infile = some ⟨-1, none⟩ ∨
    ∃ startaddr patchlen buf,
      Run lw args infile = Copy_And_Patch infile startaddr patchlen buf := by
  unfold Run
  by_cases h1 : args.infilename.length = 0
  · rw [if_pos h1]; exact Or.inr (Or.inl rfl)
  rw [if_neg h1]
  by_cases h2 : args.outfilename.length = 0
  · rw [if_pos h2]; exact Or.inr (Or.inl rfl)
  rw [if_neg h2]
  by_cases h3 : args.patchpatterncnt = 0
  · rw [if_pos h3]; exact Or.inr (Or.inl rfl)
  rw [if_neg h3]
  by_cases h4 : args.patchpatterncnt > 1
  · rw [if_pos h4]; exact Or.inr (Or.inl rfl)
  rw [if_neg h4]
  by_cases h5 : args.searchpatterncnt = 0
  · rw [if_pos h5]; exact Or.inr (Or.inl rfl)
  rw [if_neg h5]
  by_cases h6 : args.searchpatterncnt > 1
  · rw [if_pos h6]; exact Or.inr (Or.inl rfl)
  rw [if_neg h6]
  have hexit : ∀ r, Resolve_Start lw args infile = .exit r → r = ⟨-1, none⟩ :=
    fun r => Resolve_Start_exit lw args infile r
  generalize Resolve_Start lw args infile = start at hexit
  cases start with
  | exit r =>
    rw [hexit r rfl]
    exact Or.inr (Or.inl rfl)
  | undefined => exact Or.inl rfl
  | indeterminate =>
    dsimp only
    split_ifs
    all_goals first
      | exact Or.inl rfl
      | exact Or.inr (Or.inl rfl)
  | value startaddr =>
    dsimp only
    split_ifs
    all_goals first
      | exact Or.inr (Or.inl rfl)
      | exact Or.inr (Or.inr ⟨_, _, _, rfl⟩)

/-! ## More properties of `Find_Pattern_In_File` -/

/-- While the first pattern byte does not show up, the match counter stays at zero. -/
theorem counter_zero_of_first_byte_absent (P rest : List Nat) (hP : P ≠ []) :
    ∀ pre : List Nat, (∀ b ∈ pre, some b ≠ P[0]?) → Match_Counter (P ++ rest) pre = 0 := by
  have hpos : 0 < P.length := List.length_pos.mpr hP
  have h0 : (P ++ rest)[0]? = P[0]? := List.getElem?_append_left hpos
  intro pre
  unfold Match_Counter
  induction pre with
  | nil => intro _; rfl
  | cons b pre ih =>
    intro h
    have hb : ¬ (P ++ rest)[0]? = some b := by
      rw [h0]
      exact fun e => h b (List.mem_cons_self b pre) e.symm
    rw [List.foldl_cons]
    unfold Match_Step
    rw [if_neg hb]
    exact ih (fun c hc => h c (List.mem_cons_of_mem b hc))

/-- An occurrence starts with the first pattern byte. -/
theorem occurs_first_byte (buf P : List Nat) (j : Nat) (hP : P ≠ []) (h : Occurs_At buf P j) :
    buf[j]? = P[0]? := by
  have hpos : 0 < P.length := List.length_pos.mpr hP
  unfold Occurs_At at h
  have h1 : ((buf.drop j).take P.length)[0]? = P[0]? := by rw [h]
  rw [List.getElem?_take_of_lt hpos, List.getElem?_drop] at h1
  simpa using h1

/-- The bytes in front of index `i`, seen as members of the scanned prefix. -/
theorem mem_take_getElem? (buf : List Nat) (i b : Nat) (hb : b ∈ buf.take i) :
    ∃ j, j < i ∧ buf[j]? = some b := by
  obtain ⟨n, hn⟩ := List.mem_iff_getElem?.mp hb
  have hlt : n < i := by
    by_contra hge
    have hlen : (buf.take i).length ≤ n := by
      rw [List.length_take]; omega
    rw [List.getElem?_eq_none hlen] at hn
    cases hn
  rw [List.getElem?_take_of_lt hlt] at hn
  exact ⟨n, hlt, hn⟩

/-- An occurrence at `i` with the first pattern byte absent below `i` is the first
occurrence, and it is reached with the counter at zero. -/
theorem first_of_first_byte_absent (buf P rest : List Nat) (i : Nat) (hP : P ≠ [])
    (hocc : Occurs_At buf P i) (habs : ∀ j, j < i → buf[j]? ≠ P[0]?) :
    First_Occurrence buf P i ∧ Match_Counter (P ++ rest) (buf.take i) = 0 := by
  refine ⟨⟨hocc, fun j hj h => habs j hj (occurs_first_byte buf P j hP h)⟩, ?_⟩
  apply counter_zero_of_first_byte_absent P rest hP
  intro b hb e
  obtain ⟨j, hj, hbj⟩ := mem_take_getElem? buf i b hb
  exact habs j hj (by rw [hbj, e])

/-- The two anchor modes run the same scan: either both run to the end of the data
without a match, or both return for the same match, which ends just before some index
`e`. -/
theorem find_loop_modes (lw : LongWidth) (P rest : List Nat) :
    ∀ (suf : List Nat) (i k : Nat), k < P.length → k ≤ i →
      (∀ z, Find_Pattern_Loop lw (P ++ rest) P.length z suf i k
        = End_Of_Data lw (i + suf.length)) ∨
      ∃ e, P.length ≤ e ∧ e ≤ i + suf.length ∧
        ∀ z, Find_Pattern_Loop lw (P ++ rest) P.length z suf i k
          = some (Found_Value P.length z e) := by
  intro suf
  induction suf with
  | nil =>
    intro i k _ _
    exact Or.inl (fun _ => rfl)
  | cons b suf ih =>
    intro i k hk hki
    have hstep : ∀ k2, k2 < P.length → k2 ≤ i + 1 → k2 ≠ P.length →
        (if b = P.get ⟨k, hk⟩ then k + 1 else 0) = k2 →
        ((∀ z, Find_Pattern_Loop lw (P ++ rest) P.length z (b :: suf) i k
            = End_Of_Data lw (i + (b :: suf).length)) ∨
          ∃ e, P.length ≤ e ∧ e ≤ i + (b :: suf).length ∧
            ∀ z, Find_Pattern_Loop lw (P ++ rest) P.length z (b :: suf) i k
              = some (Found_Value P.length z e)) := by
      intro k2 hk2 hk2i hne hk2eq
      have hunf : ∀ z, Find_Pattern_Loop lw (P ++ rest) P.length z (b :: suf) i k
          = Find_Pattern_Loop lw (P ++ rest) P.length z suf (i + 1) k2 := by
        intro z
        rw [Find_Pattern_Loop, pattern_getElem? P rest k hk]
        simp only []
        rw [hk2eq, if_neg hne]
      have hn : i + 1 + suf.length = i + (b :: suf).length := by
        simp only [List.length_cons]; omega
      rcases ih (i + 1) k2 hk2 hk2i with h | ⟨e, h1, h2, h3⟩
      · exact Or.inl (fun z => by rw [hunf z, h z, hn])
      · exact Or.inr ⟨e, h1, by simp only [List.length_cons]; omega,
          fun z => by rw [hunf z, h3 z]⟩
    by_cases hb : b = P.get ⟨k, hk⟩
    · by_cases hfull : k + 1 = P.length
      · right
        refine ⟨i + 1, by omega, by simp only [List.length_cons]; omega, ?_⟩
        intro z
        rw [Find_Pattern_Loop, pattern_getElem? P rest k hk]
        simp only []
        rw [if_pos hb, if_pos hfull]
        unfold Found_Value
        cases z <;> simp
        congr 1
        omega
      · exact hstep (k + 1) (by omega) (by omega) hfull (by rw [if_pos hb])
    · exact hstep 0 (by omega) (by omega) (by omega) (by rw [if_neg hb])

/-! ## More claims about `Find_Pattern_In_File` -/

/-- C15, the failing input: the buffer "aab" and the pattern "ab", which occurs in it at
index 1. After the two bytes "aa" the match counter is zero, although the second `a` is
the first pattern byte: it failed the comparison with `b`, reset the counter, and is not
compared with the first pattern byte again. The scan therefore reaches the end of the
data without a match. The not-found value is all the same not returned: the function
first calls `delete[] fData` on the pointer advanced by the loop (lines 204 and 208),
which is undefined, in both anchor modes and on either width of `unsigned long`. -/
theorem Find_Pattern_In_File_miss_undefined :
    Occurs_At (bytes "aab") (bytes "ab") 1 ∧
    Match_Counter (bytes "ab") (bytes "aa") = 0 ∧
    (bytes "aab")[1]? = (bytes "ab")[0]? ∧
    Match_Counter (bytes "ab") (bytes "aab") = 0 ∧
    Find_Pattern_In_File .bits32 (bytes "aab") (bytes "ab") 2 true = none ∧
    Find_Pattern_In_File .bits32 (bytes "aab") (bytes "ab") 2 false = none ∧
    Find_Pattern_In_File .bits64 (bytes "aab") (bytes "ab") 2 true = none ∧
    Find_Pattern_In_File .bits64 (bytes "aab") (bytes "ab") 2 false = none := by
  decide

/-- C16. For every byte buffer an `int` can index and every non-empty pattern `P` of
length `L`: if `P` occurs in the buffer starting at index `i` and the first byte of `P`
occurs nowhere in the buffer at the indices below `i`, then `Find_Pattern_In_File`
returns `i` with `z` true and `i + L` with `z` false. -/
theorem Find_Pattern_In_File_first_byte_absent (lw : LongWidth) (buf P rest : List Nat)
    (i : Nat) (hP : P ≠ []) (hbuf : buf.length < 2 ^ 31) (hocc : Occurs_At buf P i)
    (habs : ∀ j, j < i → buf[j]? ≠ P[0]?) :
    Find_Pattern_In_File lw buf (P ++ rest) P.length true = some i ∧
    Find_Pattern_In_File lw buf (P ++ rest) P.length false = some (i + P.length) := by
  obtain ⟨hfirst, hk⟩ := first_of_first_byte_absent buf P rest i hP hocc habs
  rw [find_at_first lw buf P rest i true hP hbuf hfirst hk,
    find_at_first lw buf P rest i false hP hbuf hfirst hk]
  simp

/-- C16 at the buffer "xxab" and the pattern "ab": no `a` below index 2. -/
theorem Find_Pattern_In_File_first_byte_absent_witness :
    Find_Pattern_In_File .bits32 (bytes "xxab") (bytes "ab" ++ [0]) (bytes "ab").length true
      = some 2 ∧
    Find_Pattern_In_File .bits32 (bytes "xxab") (bytes "ab" ++ [0]) (bytes "ab").length false
      = some (2 + (bytes "ab").length) :=
  Find_Pattern_In_File_first_byte_absent .bits32 (bytes "xxab") (bytes "ab") [0] 2
    (by decide) (by decide) (by decide) (by decide)

/-- C17. For every byte buffer an `int` can index and every non-empty pattern of length
`L`, the two anchor modes of `Find_Pattern_In_File` agree: the call with `z` true returns
the not-found value exactly when the call with `z` false does; the one is undefined
exactly when the other is; and a match found by the one is found by the other, the result
with `z` false being the result with `z` true plus `L`. -/
theorem Find_Pattern_In_File_modes_agree (lw : LongWidth) (buf P rest : List Nat)
    (hP : P ≠ []) (hbuf : buf.length < 2 ^ 31) :
    (Find_Pattern_In_File lw buf (P ++ rest) P.length true = some (NOT_FOUND lw) ↔
      Find_Pattern_In_File lw buf (P ++ rest) P.length false = some (NOT_FOUND lw)) ∧
    (Find_Pattern_In_File lw buf (P ++ rest) P.length true = none ↔
      Find_Pattern_In_File lw buf (P ++ rest) P.length false = none) ∧
    (∀ rt, Find_Pattern_In_File lw buf (P ++ rest) P.length true = some rt →
      rt ≠ NOT_FOUND lw →
      Find_Pattern_In_File lw buf (P ++ rest) P.length false = some (rt + P.length)) ∧
    (∀ rf, Find_Pattern_In_File lw buf (P ++ rest) P.length false = some rf →
      rf ≠ NOT_FOUND lw →
      P.length ≤ rf ∧
        Find_Pattern_In_File lw buf (P ++ rest) P.length true = some (rf - P.length)) := by
  have hpos : 0 < P.length := List.length_pos.mpr hP
  unfold Find_Pattern_In_File
  rcases find_loop_modes lw P rest buf 0 0 hpos (Nat.le_refl 0) with h | ⟨e, h1, h2, h3⟩
  · rw [h true, h false]
    refine ⟨Iff.rfl, Iff.rfl, ?_, ?_⟩
    · intro rt hrt hne
      unfold End_Of_Data at hrt
      split_ifs at hrt
      exact absurd (Option.some.inj hrt).symm hne
    · intro rf hrf hne
      unfold End_Of_Data at hrf
      split_ifs at hrf
      exact absurd (Option.some.inj hrf).symm hne
  · have he : e < 2 ^ 31 := by omega
    rw [h3 true, h3 false, Found_Value_eq P.length e true h1 he,
      Found_Value_eq P.length e false h1 he, NOT_FOUND_eq]
    simp only [if_true, Bool.false_eq_true, if_false]
    refine ⟨?_, ?_, ?_, ?_⟩
    · constructor <;> intro h <;> have := Option.some.inj h <;> omega
    · constructor <;> intro h <;> cases h
    · intro rt hrt _
      have := Option.some.inj hrt
      congr 1
      omega
    · intro rf hrf _
      have := Option.some.inj hrf
      refine ⟨by omega, ?_⟩
      congr 1
      omega

/-- C17 at the buffer "xxab" with the pattern "ab", where the results are 2 and 4; at the
empty buffer, where both calls return the not-found value; and at the buffer "abc" with
the pattern "xyz", where both calls are undefined. -/
theorem Find_Pattern_In_File_modes_agree_witness :
    Find_Pattern_In_File .bits64 (bytes "xxab") (bytes "ab" ++ [0]) (bytes "ab").length true
      = some 2 ∧
    Find_Pattern_In_File .bits64 (bytes "xxab") (bytes "ab" ++ [0]) (bytes "ab").length false
      = some (2 + (bytes "ab").length) ∧
    Find_Pattern_In_File .bits64 [] (bytes "ab" ++ [0]) (bytes "ab").length false
      = some (NOT_FOUND .bits64) ∧
    Find_Pattern_In_File .bits64 (bytes "abc") (bytes "xyz" ++ [0]) (bytes "xyz").length false
      = none :=
  ⟨by decide,
    (Find_Pattern_In_File_modes_agree .bits64 (bytes "xxab") (bytes "ab") [0]
      (by decide) (by decide)).2.2.1 2 (by decide) (by decide),
    (Find_Pattern_In_File_modes_agree .bits64 [] (bytes "ab") [0]
      (by decide) (by decide)).1.mp (by decide),
    (Find_Pattern_In_File_modes_agree .bits64 (bytes "abc") (bytes "xyz") [0]
      (by decide) (by decide)).2.1.mp (by decide)⟩

/-! ## More properties of `Clean_Hex_String` -/

/-- The first occurrence of a character splits the string around it. -/
theorem indexOf_split (c : Nat) :
    ∀ s : List Nat, c ∈ s →
      s = s.take (s.indexOf c) ++ c :: s.drop (s.indexOf c + 1) ∧
      c ∉ s.take (s.indexOf c) := by
  intro s
  induction s with
  | nil => intro h; cases h
  | cons a t ih =>
    intro h
    by_cases hac : a = c
    · subst hac
      simp [List.indexOf_cons]
    · have hct : c ∈ t := by
        rcases List.mem_cons.mp h with h | h
        · exact absurd h.symm hac
        · exact h
      obtain ⟨h1, h2⟩ := ih hct
      have hidx : (a :: t).indexOf c = t.indexOf c + 1 := by
        simp [List.indexOf_cons, hac]
      rw [hidx]
      constructor
      · simp only [List.take_succ_cons, List.drop_succ_cons, List.cons_append]
        rw [← h1]
      · simp only [List.take_succ_cons, List.mem_cons, not_or]
        exact ⟨fun e => hac e.symm, h2⟩

/-- A character lies within the first `n` characters exactly when `find` returns an index
below `n`. -/
theorem string_find_lt_iff (c n : Nat) (hn : n ≤ 128) :
    ∀ s : List Nat, string_find s c < n ↔ c ∈ s.take n := by
  intro s
  unfold string_find
  by_cases hc : c ∈ s
  · rw [if_pos hc]
    obtain ⟨h1, h2⟩ := indexOf_split c s hc
    constructor
    · intro hlt
      have : s.take n = (s.take (s.indexOf c) ++ c :: s.drop (s.indexOf c + 1)).take n := by
        rw [← h1]
      rw [this, List.take_append_eq_append_take]
      have hl : (s.take (s.indexOf c)).length = s.indexOf c := by
        rw [List.length_take]
        have := List.indexOf_le_length (a := c) (l := s)
        omega
      rw [hl]
      obtain ⟨m, hm⟩ : ∃ m, n - s.indexOf c = m + 1 := ⟨n - s.indexOf c - 1, by omega⟩
      rw [hm]
      simp
    · intro hmem
      by_contra hge
      have : s.take n = (s.take (s.indexOf c)).take n := by
        rw [List.take_take, Nat.min_eq_left (by omega)]
      rw [this] at hmem
      exact h2 (List.mem_of_mem_take hmem)
  · rw [if_neg hc]
    constructor
    · intro hlt
      unfold string_npos at hlt
      omega
    · intro hmem
      exact absurd (List.mem_of_mem_take hmem) hc

/-- `Clean_Hex_String` cuts behind the first `x` when `find` puts it below 128. -/
theorem Clean_Hex_String_cut_x (s : List Nat) (h : string_find s 120 < 128) :
    Clean_Hex_String s = s.drop (string_find s 120 + 1) := by
  have hn : ('x').toNat = 120 := by decide
  unfold Clean_Hex_String
  simp only [hn]
  rw [if_pos ⟨Nat.zero_le _, h⟩]

/-- `Clean_Hex_String` cuts behind the first `X` when there is no `x` below 128 and
`find` puts the `X` below 128. -/
theorem Clean_Hex_String_cut_X (s : List Nat) (hx : ¬ string_find s 120 < 128)
    (h : string_find s 88 < 128) :
    Clean_Hex_String s = s.drop (string_find s 88 + 1) := by
  have hn : ('x').toNat = 120 := by decide
  have hN : ('X').toNat = 88 := by decide
  unfold Clean_Hex_String
  simp only [hn, hN]
  rw [if_neg (fun h2 => hx h2.2), if_pos ⟨Nat.zero_le _, h⟩]

/-- `Clean_Hex_String` keeps a string with neither character below 128. -/
theorem Clean_Hex_String_keep (s : List Nat) (hx : ¬ string_find s 120 < 128)
    (hX : ¬ string_find s 88 < 128) : Clean_Hex_String s = s := by
  have hn : ('x').toNat = 120 := by decide
  have hN : ('X').toNat = 88 := by decide
  unfold Clean_Hex_String
  simp only [hn, hN]
  rw [if_neg (fun h2 => hx h2.2), if_neg (fun h2 => hX h2.2)]

/-! ## Claim about `Clean_Hex_String` -/

/-- C19. For every string `s`: `Clean_Hex_String` leaves `s` unchanged when neither `x`
nor `X` lies within its first 128 characters; when an `x` lies within the first 128
characters the result is the suffix behind the first `x`; and when no `x` but an `X` lies
within the first 128 characters the result is the suffix behind the first `X`. Nothing
is asked of the characters in front of the cut. -/
theorem Clean_Hex_String_spec (s : List Nat) :
    ('x'.toNat ∉ s.take 128 → 'X'.toNat ∉ s.take 128 → Clean_Hex_String s = s) ∧
    ('x'.toNat ∈ s.take 128 →
      ∃ pre suf, s = pre ++ 'x'.toNat :: suf ∧ 'x'.toNat ∉ pre ∧ Clean_Hex_String s = suf) ∧
    ('x'.toNat ∉ s.take 128 → 'X'.toNat ∈ s.take 128 →
      ∃ pre suf, s = pre ++ 'X'.toNat :: suf ∧ 'X'.toNat ∉ pre ∧ Clean_Hex_String s = suf) := by
  have hn : ('x').toNat = 120 := by decide
  have hN : ('X').toNat = 88 := by decide
  rw [hn, hN]
  have ix := string_find_lt_iff 120 128 (Nat.le_refl _) s
  have iX := string_find_lt_iff 88 128 (Nat.le_refl _) s
  refine ⟨?_, ?_, ?_⟩
  · intro hx hX
    exact Clean_Hex_String_keep s (fun h => hx (ix.mp h)) (fun h => hX (iX.mp h))
  · intro hx
    have hmem : 120 ∈ s := List.mem_of_mem_take hx
    obtain ⟨h1, h2⟩ := indexOf_split 120 s hmem
    refine ⟨_, _, h1, h2, ?_⟩
    rw [Clean_Hex_String_cut_x s (ix.mpr hx)]
    unfold string_find
    rw [if_pos hmem]
  · intro hx hX
    have hmem : 88 ∈ s := List.mem_of_mem_take hX
    obtain ⟨h1, h2⟩ := indexOf_split 88 s hmem
    refine ⟨_, _, h1, h2, ?_⟩
    rw [Clean_Hex_String_cut_X s (fun h => hx (ix.mp h)) (iX.mpr hX)]
    unfold string_find
    rw [if_pos hmem]

/-- C19 at its examples: "12x34" becomes "34", "0X1x2" becomes "2", "0X12" becomes "12"
and "1234" stays. -/
theorem Clean_Hex_String_spec_witness :
    Clean_Hex_String (bytes "12x34") = bytes "34" ∧
    Clean_Hex_String (bytes "0X1x2") = bytes "2" ∧
    Clean_Hex_String (bytes "0X12") = bytes "12" ∧
    Clean_Hex_String (bytes "1234") = bytes "1234" ∧
    (∃ pre suf, bytes "12x34" = pre ++ 'x'.toNat :: suf ∧ 'x'.toNat ∉ pre ∧
      Clean_Hex_String (bytes "12x34") = suf) ∧
    (∃ pre suf, bytes "0X12" = pre ++ 'X'.toNat :: suf ∧ 'X'.toNat ∉ pre ∧
      Clean_Hex_String (bytes "0X12") = suf) :=
  ⟨by decide, by decide, by decide,
    (Clean_Hex_String_spec (bytes "1234")).1 (by decide) (by decide),
    (Clean_Hex_String_spec (bytes "12x34")).2.1 (by decide),
    (Clean_Hex_String_spec (bytes "0X12")).2.2 (by decide) (by decide)⟩

/-! ## The patch stage behind a resolved start address -/

/-- The body of `main` with a text value of 1..48 bytes, once the first stage has set
`startaddr`: the file part of the patch case with the `strcpy` of the text in `buf`. -/
theorem Run_text_of_value (lw : LongWidth) (args : Args) (infile : Option (List Nat))
    (a : Nat) (hin : args.infilename ≠ []) (hout : args.outfilename ≠ [])
    (hp : args.patchpatterncnt = 1) (hs : args.searchpatterncnt = 1)
    (hres : Resolve_Start lw args infile = .value a)
    (hv1 : 1 ≤ args.textpatchpattern.length) (hv48 : args.textpatchpattern.length ≤ 48) :
    Run lw args infile
      = Copy_And_Patch infile a args.textpatchpattern.length
          (some (strcpy args.textpatchpattern)) := by
  have hin2 : args.infilename.length ≠ 0 := fun h => hin (List.length_eq_zero.mp h)
  have hout2 : args.outfilename.length ≠ 0 := fun h => hout (List.length_eq_zero.mp h)
  unfold Run
  rw [if_neg hin2, if_neg hout2, if_neg (by omega), if_neg (by omega), if_neg (by omega),
    if_neg (by omega), hres]
  dsimp only
  rw [if_pos (by omega), if_neg (by omega), if_neg (by omega)]

/-- The body of `main` with a binary value and no text value, once the first stage has
set `startaddr`: the file part of the patch case with the bytes of the value in `buf`. -/
theorem Run_binary_of_value (lw : LongWidth) (args : Args) (infile : Option (List Nat))
    (a : Nat) (hin : args.infilename ≠ []) (hout : args.outfilename ≠ [])
    (hp : args.patchpatterncnt = 1) (hs : args.searchpatterncnt = 1)
    (hres : Resolve_Start lw args infile = .value a)
    (ht : args.textpatchpattern = [])
    (hb : 1 ≤ (Clean_Hex_String args.binarypatchpattern).length) :
    Run lw args infile
      = Copy_And_Patch infile a
          ((Clean_Hex_String args.binarypatchpattern).length / 2
            + (Clean_Hex_String args.binarypatchpattern).length % 2)
          (Binary_Bytes (Clean_Hex_String args.binarypatchpattern)) := by
  have hin2 : args.infilename.length ≠ 0 := fun h => hin (List.length_eq_zero.mp h)
  have hout2 : args.outfilename.length ≠ 0 := fun h => hout (List.length_eq_zero.mp h)
  have hbl : args.binarypatchpattern.length > 0 := by
    by_contra h0
    have hnil : args.binarypatchpattern = [] := List.length_eq_zero.mp (by omega)
    rw [hnil] at hb
    have : Clean_Hex_String [] = [] := by decide
    rw [this] at hb
    simp at hb
  unfold Run
  rw [if_neg hin2, if_neg hout2, if_neg (by omega), if_neg (by omega), if_neg (by omega),
    if_neg (by omega), hres]
  dsimp only
  rw [ht]
  rw [if_neg (by simp), if_pos hbl, if_neg (by omega)]
  rfl

/-- A run whose patch stage returns -1 before it opens any file (a text value of more
than 48 bytes, a binary value of length 0, or no value at all) returns -1 without an
output file, whatever the first stage has left in `startaddr`, as long as the first stage
itself is defined. -/
theorem Run_early_exit (lw : LongWidth) (args : Args) (infile : Option (List Nat))
    (hdef : Resolve_Start lw args infile ≠ .undefined)
    (htext : args.textpatchpattern.length > 0 → args.textpatchpattern.length > 48)
    (hbin : args.textpatchpattern.length = 0 → args.binarypatchpattern.length > 0 →
      (Clean_Hex_String args.binarypatchpattern).length / 2
        + (Clean_Hex_String args.binarypatchpattern).length % 2 < 1) :
    Run lw args infile = some ⟨-1, none⟩ := by
  unfold Run
  by_cases h1 : args.infilename.length = 0
  · rw [if_pos h1]
  rw [if_neg h1]
  by_cases h2 : args.outfilename.length = 0
  · rw [if_pos h2]
  rw [if_neg h2]
  by_cases h3 : args.patchpatterncnt = 0
  · rw [if_pos h3]
  rw [if_neg h3]
  by_cases h4 : args.patchpatterncnt > 1
  · rw [if_pos h4]
  rw [if_neg h4]
  by_cases h5 : args.searchpatterncnt = 0
  · rw [if_pos h5]
  rw [if_neg h5]
  by_cases h6 : args.searchpatterncnt > 1
  · rw [if_pos h6]
  rw [if_neg h6]
  have hexit : ∀ r, Resolve_Start lw args infile = .exit r → r = ⟨-1, none⟩ :=
    fun r => Resolve_Start_exit lw args infile r
  generalize Resolve_Start lw args infile = start at hexit hdef
  have hstage : (if args.textpatchpattern.length > 0 then
        if args.textpatchpattern.length < 1 then some (⟨-1, none⟩ : Result)
        else if args.textpatchpattern.length > 48 then some ⟨-1, none⟩
        else none
      else if args.binarypatchpattern.length > 0 then
        if (Clean_Hex_String args.binarypatchpattern).length / 2
            + (Clean_Hex_String args.binarypatchpattern).length % 2 < 1 then
          some ⟨-1, none⟩
        else none
      else some ⟨-1, none⟩) = some ⟨-1, none⟩ := by
    by_cases ht : args.textpatchpattern.length > 0
    · rw [if_pos ht, if_neg (by omega), if_pos (htext ht)]
    · rw [if_neg ht]
      by_cases hb : args.binarypatchpattern.length > 0
      · rw [if_pos hb, if_pos (hbin (by omega) hb)]
      · rw [if_neg hb]
  cases start with
  | exit r => rw [hexit r rfl]
  | undefined => exact absurd rfl hdef
  | indeterminate =>
    dsimp only
    exact hstage
  | value startaddr =>
    dsimp only
    by_cases ht : args.textpatchpattern.length > 0
    · rw [if_pos ht, if_neg (by omega), if_pos (htext ht)]
    · rw [if_neg ht]
      by_cases hb : args.binarypatchpattern.length > 0
      · rw [if_pos hb, if_pos (hbin (by omega) hb)]
      · rw [if_neg hb]

/-- With a plain hexadecimal address the first stage is defined. -/
theorem Resolve_Start_address (lw : LongWidth) (args : Args) (infile : Option (List Nat))
    (h : List Nat) (hh : IsHexString h) (h1 : 1 ≤ h.length) (h16 : h.length ≤ 16)
    (ha : args.patchstartaddr = h ∨ args.patchstartaddr = bytes "0x" ++ h ∨
      args.patchstartaddr = bytes "0X" ++ h) :
    Resolve_Start lw args infile = .value (hexValue h % 2 ^ 32) := by
  have hne : h ≠ [] := by
    intro hnil
    rw [hnil] at h1
    simp at h1
  have e1 : bytes "0x" ++ h = 48 :: 120 :: h := rfl
  have e2 : bytes "0X" ++ h = 48 :: 88 :: h := rfl
  have hclean : Clean_Hex_String args.patchstartaddr = h := by
    rcases ha with ha | ha | ha
    · rw [ha, Clean_Hex_String_hex h hh]
    · rw [ha, e1, Clean_Hex_String_0x]
    · rw [ha, e2, Clean_Hex_String_0X h hh]
  have hlen : args.patchstartaddr.length > 0 := by
    rcases ha with ha | ha | ha
    · rw [ha]; omega
    · rw [ha, e1]; simp
    · rw [ha, e2]; simp
  unfold Resolve_Start
  rw [if_pos hlen]
  simp only [hclean, Parse_hex h hh hne h16]

/-! ## Claims about the patch value -/

/-- A request in which the number of search options or of patch value options is not
exactly one returns -1 without an output file. -/
theorem Run_bad_counts (lw : LongWidth) (args : Args) (infile : Option (List Nat))
    (h : args.searchpatterncnt = 0 ∨ args.searchpatterncnt > 1 ∨
      args.patchpatterncnt = 0 ∨ args.patchpatterncnt > 1) :
    Run lw args infile = some ⟨-1, none⟩ := by
  unfold Run
  by_cases h1 : args.infilename.length = 0
  · rw [if_pos h1]
  rw [if_neg h1]
  by_cases h2 : args.outfilename.length = 0
  · rw [if_pos h2]
  rw [if_neg h2]
  by_cases h3 : args.patchpatterncnt = 0
  · rw [if_pos h3]
  rw [if_neg h3]
  by_cases h4 : args.patchpatterncnt > 1
  · rw [if_pos h4]
  rw [if_neg h4]
  by_cases h5 : args.searchpatterncnt = 0
  · rw [if_pos h5]
  rw [if_neg h5]
  by_cases h6 : args.searchpatterncnt > 1
  · rw [if_pos h6]
  omega

/-- C13, the failing input: `-i in.bin -o out.bin -a "" -TAB`, an address option with an
empty argument. The option is counted, so `searchpatterncnt` is 1, but all three search
strings are empty; the last `else` of the first stage (lines 373-375) prints "Invalid
patch start address, exiting!" and does not return. `startaddr` stays uninitialised and
the run goes on to the patch stage, which reads it: the run is undefined, where a
return of -1 was announced. -/
theorem main_empty_search_falls_through :
    Get_Options [.i (bytes "in.bin"), .o (bytes "out.bin"), .a [], .T (bytes "AB")] Args.init
      = some ⟨bytes "in.bin", bytes "out.bin", [], [], [], [], bytes "AB", 1, 1, false⟩ ∧
    Resolve_Start .bits32 ⟨bytes "in.bin", bytes "out.bin", [], [], [], [], bytes "AB", 1, 1,
      false⟩ (some (List.replicate 16 0)) = .indeterminate ∧
    Resolve_Start .bits64 ⟨bytes "in.bin", bytes "out.bin", [], [], [], [], bytes "AB", 1, 1,
      false⟩ (some (List.replicate 16 0)) = .indeterminate ∧
    main .bits32 [.i (bytes "in.bin"), .o (bytes "out.bin"), .a [], .T (bytes "AB")]
      (some (List.replicate 16 0)) = none ∧
    main .bits64 [.i (bytes "in.bin"), .o (bytes "out.bin"), .a [], .T (bytes "AB")]
      (some (List.replicate 16 0)) = none ∧
    main .bits64 [.i (bytes "in.bin"), .o (bytes "out.bin"), .a [], .T (bytes "AB")]
      (some (List.replicate 16 0)) ≠ some ⟨-1, none⟩ := by
  decide

/-- C14, counterexample. The binary patch value `0x12G4` is `12G4` after stripping and
holds the character `G`, which is no hex digit. The run is not rejected: the extraction
stops in front of `G` and yields `0x12`, the length is 2, and the run returns 0 after
writing the bytes `00 12` at offset 0. The value `0xG1`, with no leading digit at all,
writes the byte `00`. -/
theorem main_non_hex_value_accepted :
    Clean_Hex_String (bytes "0x12G4") = bytes "12G4" ∧ ¬ IsHexString (bytes "12G4") ∧
    main .bits32 [.i (bytes "in.bin"), .o (bytes "out.bin"), .a (bytes "0x0"),
        .B (bytes "0x12G4")] (some (List.replicate 4 255))
      = some ⟨0, some [0x00, 0x12, 255, 255]⟩ ∧
    main .bits64 [.i (bytes "in.bin"), .o (bytes "out.bin"), .a (bytes "0x0"),
        .B (bytes "0x12G4")] (some (List.replicate 4 255))
      = some ⟨0, some [0x00, 0x12, 255, 255]⟩ ∧
    main .bits64 [.i (bytes "in.bin"), .o (bytes "out.bin"), .a (bytes "0x0"),
        .B (bytes "0xG1")] (some (List.replicate 4 255))
      = some ⟨0, some [0x00, 255, 255, 255]⟩ := by
  decide

/-- C14, amended. For every binary patch value string that is empty after the prefix
stripping by `Clean_Hex_String`, in a request without a text value, the run returns -1
and opens no output file, so that no payload byte is written. The first stage of `main`
is taken to be defined. -/
theorem Run_empty_binary_value (lw : LongWidth) (args : Args) (infile : Option (List Nat))
    (ht : args.textpatchpattern = []) (hb : Clean_Hex_String args.binarypatchpattern = [])
    (hdef : Resolve_Start lw args infile ≠ .undefined) :
    Run lw args infile = some ⟨-1, none⟩ := by
  apply Run_early_exit lw args infile hdef
  · intro h
    rw [ht] at h
    simp at h
  · intro _ _
    rw [hb]
    decide

/-- C14, amended, at `-a0x0 -B0x` on a 4-byte file. -/
theorem Run_empty_binary_value_witness :
    Clean_Hex_String (bytes "0x") = [] ∧
    Run .bits64 ⟨bytes "in.bin", bytes "out.bin", bytes "0x0", [], [], bytes "0x", [], 1, 1,
      false⟩ (some (List.replicate 4 255)) = some ⟨-1, none⟩ :=
  ⟨by decide,
    Run_empty_binary_value .bits64 ⟨bytes "in.bin", bytes "out.bin", bytes "0x0", [], [],
      bytes "0x", [], 1, 1, false⟩ (some (List.replicate 4 255)) (by decide) (by decide)
      (by decide)⟩

/-! ## Claim about the fixed address -/

/-- C18. For every fixed-address argument of 1..16 hex digits `h`, given plain or
behind `0x` or `0X`, that denotes the number `v`: the first stage sets `startaddr` to
`v mod 2 ^ 32`, and this is the start address the patch stage uses for the bounds check
and for the write, with a text value as with a binary value. An address of `2 ^ 32` or
more is neither rejected nor used as given. -/
theorem Resolve_Start_address_narrowed (lw : LongWidth) (args : Args)
    (infile : Option (List Nat)) (h : List Nat) (hh : IsHexString h) (h1 : 1 ≤ h.length)
    (h16 : h.length ≤ 16)
    (ha : args.patchstartaddr = h ∨ args.patchstartaddr = bytes "0x" ++ h ∨
      args.patchstartaddr = bytes "0X" ++ h) :
    Resolve_Start lw args infile = .value (hexValue h % 2 ^ 32) ∧
    (args.infilename ≠ [] → args.outfilename ≠ [] → args.patchpatterncnt = 1 →
      args.searchpatterncnt = 1 →
      (1 ≤ args.textpatchpattern.length → args.textpatchpattern.length ≤ 48 →
        Run lw args infile
          = Copy_And_Patch infile (hexValue h % 2 ^ 32) args.textpatchpattern.length
              (some (strcpy args.textpatchpattern))) ∧
      (args.textpatchpattern = [] → 1 ≤ (Clean_Hex_String args.binarypatchpattern).length →
        Run lw args infile
          = Copy_And_Patch infile (hexValue h % 2 ^ 32)
              ((Clean_Hex_String args.binarypatchpattern).length / 2
                + (Clean_Hex_String args.binarypatchpattern).length % 2)
              (Binary_Bytes (Clean_Hex_String args.binarypatchpattern)))) := by
  have hres := Resolve_Start_address lw args infile h hh h1 h16 ha
  refine ⟨hres, fun hin hout hp hs => ⟨?_, ?_⟩⟩
  · intro hv1 hv48
    exact Run_text_of_value lw args infile _ hin hout hp hs hres hv1 hv48
  · intro ht hb
    exact Run_binary_of_value lw args infile _ hin hout hp hs hres ht hb

/-- C18 at its example: the address `0x100000004` with the value `0x0201` on 16 zero
bytes. The start address is 4 and the bytes 4 and 5 are patched. -/
theorem Resolve_Start_address_narrowed_witness :
    hexValue (bytes "100000004") = 0x100000004 ∧
    main .bits64 [.i (bytes "in.bin"), .o (bytes "out.bin"), .a (bytes "0x100000004"),
        .B (bytes "0x0201")] (some (List.replicate 16 0))
      = some ⟨0, some [0, 0, 0, 0, 2, 1, 0, 0, 0, 0, 0, 0, 0, 0, 0, 0]⟩ ∧
    Resolve_Start .bits64 ⟨bytes "in.bin", bytes "out.bin", bytes "0x100000004", [], [],
        bytes "0x0201", [], 1, 1, false⟩ (some (List.replicate 16 0))
      = .value (hexValue (bytes "100000004") % 2 ^ 32) ∧
    Run .bits64 ⟨bytes "in.bin", bytes "out.bin", bytes "0x100000004", [], [],
        bytes "0x0201", [], 1, 1, false⟩ (some (List.replicate 16 0))
      = Copy_And_Patch (some (List.replicate 16 0)) (hexValue (bytes "100000004") % 2 ^ 32)
          ((Clean_Hex_String (bytes "0x0201")).length / 2
            + (Clean_Hex_String (bytes "0x0201")).length % 2)
          (Binary_Bytes (Clean_Hex_String (bytes "0x0201"))) :=
  ⟨by decide, by decide,
    (Resolve_Start_address_narrowed .bits64 ⟨bytes "in.bin", bytes "out.bin",
        bytes "0x100000004", [], [], bytes "0x0201", [], 1, 1, false⟩
      (some (List.replicate 16 0)) (bytes "100000004") (by decide) (by decide) (by decide)
      (Or.inr (Or.inl (by decide)))).1,
    ((Resolve_Start_address_narrowed .bits64 ⟨bytes "in.bin", bytes "out.bin",
        bytes "0x100000004", [], [], bytes "0x0201", [], 1, 1, false⟩
      (some (List.replicate 16 0)) (bytes "100000004") (by decide) (by decide) (by decide)
      (Or.inr (Or.inl (by decide)))).2 (by decide) (by decide) (by decide) (by decide)).2
      (by decide) (by decide)⟩

/-! ## Runs with a binary marker -/

/-- A write of as many bytes as the middle part holds replaces the middle part. -/
theorem Stream_Write_At_middle (a m c d : List Nat) (h : m.length = d.length) :
    Stream_Write_At (a ++ m ++ c) a.length d = a ++ d ++ c := by
  unfold Stream_Write_At
  have h0 : a.length - (a ++ m ++ c).length = 0 := by
    simp only [List.length_append]; omega
  simp only [h0, List.replicate_zero, List.append_nil]
  have h1 : (a ++ m ++ c).take a.length = a := by
    rw [List.append_assoc, List.take_left]
  have h2 : (a ++ m ++ c).drop (a.length + d.length) = c := by
    have : a.length + d.length = (a ++ m).length := by
      simp only [List.length_append]; omega
    rw [this, List.drop_left]
  rw [h1, h2]

/-- The first stage of `main` for a binary marker whose bytes are `pData`, when the
search returns a value other than `ULONG_MAX`. -/
theorem Resolve_Start_binary (lw : LongWidth) (args : Args) (file pData : List Nat)
    (r : Nat) (ha : args.patchstartaddr = []) (ht : args.textsearchpattern = [])
    (hb : args.binsearchpattern ≠ [])
    (hbytes : Binary_Bytes (Clean_Hex_String args.binsearchpattern) = some pData)
    (hfind : Find_Pattern_In_File lw file pData
      ((Clean_Hex_String args.binsearchpattern).length / 2
        + (Clean_Hex_String args.binsearchpattern).length % 2) args.patch_pos = some r)
    (hr : r ≠ ULONG_MAX lw) :
    Resolve_Start lw args (some file) = .value r := by
  have hbl : args.binsearchpattern.length > 0 := List.length_pos.mpr hb
  unfold Binary_Bytes at hbytes
  unfold Resolve_Start
  rw [ha, ht]
  simp only [List.length_nil, gt_iff_lt, Nat.lt_irrefl, if_false, if_pos hbl, hbytes, hfind,
    if_neg hr]

/-- The run of Scenario 5 on any file that holds the documented bytes behind a part
`pre` without the byte `0x55`: the marker `55 AA 55 AA 55` is matched at once behind the
zero byte, the start address is `pre.length + 6`, and the text replaces the ten bytes
from there on. -/
theorem scenario5_run (lw : LongWidth) (inn out pre : List Nat) (hin : inn ≠ [])
    (hout : out ≠ []) (hpre : ∀ b ∈ pre, b ≠ 0x55) (hlen : pre.length + 19 < 2 ^ 31) :
    main lw [.i inn, .o out, .b (bytes "0x55AA55AA55"), .T (bytes "TREVOR    ")]
        (some (pre ++ Scenario5_Before))
      = some ⟨0, some (pre ++ Scenario5_After_Run)⟩ := by
  have hP : Binary_Bytes (Clean_Hex_String (bytes "0x55AA55AA55"))
      = some [0x55, 0xAA, 0x55, 0xAA, 0x55] := by decide
  have hsiz : (Clean_Hex_String (bytes "0x55AA55AA55")).length / 2
      + (Clean_Hex_String (bytes "0x55AA55AA55")).length % 2 = 5 := by decide
  have hw : Scenario5_Before
      = 0 :: ([0x55, 0xAA, 0x55, 0xAA, 0x55] ++ ([0xAA, 0x55] ++ List.replicate 11 0)) := by
    decide
  have hflen : (pre ++ Scenario5_Before).length = pre.length + 19 := by
    rw [List.length_append]
    have : Scenario5_Before.length = 19 := by decide
    omega
  -- the search
  have hocc : Occurs_At (pre ++ Scenario5_Before) [0x55, 0xAA, 0x55, 0xAA, 0x55]
      (pre.length + 1) := by
    unfold Occurs_At
    rw [hw, List.drop_append_eq_append_drop,
      List.drop_eq_nil_of_le (Nat.le_succ _)]
    have : pre.length + 1 - pre.length = 1 := by omega
    rw [this]
    rfl
  have habs : ∀ j, j < pre.length + 1 →
      (pre ++ Scenario5_Before)[j]? ≠ [0x55, 0xAA, 0x55, 0xAA, 0x55][0]? := by
    intro j hj e
    by_cases hjp : j < pre.length
    · rw [List.getElem?_append_left hjp, List.getElem?_eq_getElem hjp] at e
      have hmem : pre[j] ∈ pre := List.getElem_mem hjp
      have := hpre _ hmem
      simp at e
      exact this e
    · have hje : j = pre.length := by omega
      rw [hje, List.getElem?_append_right (Nat.le_refl _), hw] at e
      simp at e
  obtain ⟨hfirst, hk⟩ := first_of_first_byte_absent (pre ++ Scenario5_Before)
    [0x55, 0xAA, 0x55, 0xAA, 0x55] [] (pre.length + 1) (by decide) hocc habs
  have hfind := find_at_first lw (pre ++ Scenario5_Before) [0x55, 0xAA, 0x55, 0xAA, 0x55] []
    (pre.length + 1) false (by decide) (by omega) hfirst hk
  rw [List.append_nil] at hfind
  simp only [Bool.false_eq_true, if_false, List.length_cons, List.length_nil] at hfind
  -- the first stage
  have hU := ULONG_MAX_ge lw
  have hres : Resolve_Start lw ⟨inn, out, [], bytes "0x55AA55AA55", [], [],
      bytes "TREVOR    ", 1, 1, false⟩ (some (pre ++ Scenario5_Before))
      = .value (pre.length + 1 + 5) := by
    have hbne : bytes "0x55AA55AA55" ≠ [] := by decide
    apply Resolve_Start_binary lw _ _ [0x55, 0xAA, 0x55, 0xAA, 0x55] _ rfl rfl hbne hP
    · rw [hsiz]
      exact hfind
    · omega
  -- the patch stage
  have hm : main lw [.i inn, .o out, .b (bytes "0x55AA55AA55"), .T (bytes "TREVOR    ")]
      (some (pre ++ Scenario5_Before))
      = Run lw ⟨inn, out, [], bytes "0x55AA55AA55", [], [], bytes "TREVOR    ", 1, 1, false⟩
          (some (pre ++ Scenario5_Before)) := rfl
  have hstr : strcpy (bytes "TREVOR    ") = bytes "TREVOR    " ++ [0] := by decide
  have hvl : (bytes "TREVOR    ").length = 10 := by decide
  have hv1 : 1 ≤ (bytes "TREVOR    ").length := by decide
  have hv48 : (bytes "TREVOR    ").length ≤ 48 := by decide
  rw [hm, Run_text_of_value lw _ _ _ hin hout rfl rfl hres hv1 hv48]
  simp only [hstr]
  rw [Copy_And_Patch_inside _ (bytes "TREVOR    ") [0] _ (by omega) (by omega)]
  have hsplit : pre ++ Scenario5_Before
      = (pre ++ [0x00, 0x55, 0xAA, 0x55, 0xAA, 0x55])
          ++ ([0xAA, 0x55] ++ List.replicate 8 0) ++ [0, 0, 0] := by
    have : Scenario5_Before = [0x00, 0x55, 0xAA, 0x55, 0xAA, 0x55]
        ++ ([0xAA, 0x55] ++ List.replicate 8 0) ++ [0, 0, 0] := by decide
    rw [this]
    simp only [List.append_assoc]
  have hpos : pre.length + 1 + 5 = (pre ++ [0x00, 0x55, 0xAA, 0x55, 0xAA, 0x55]).length := by
    simp
  have hout2 : pre ++ Scenario5_After_Run
      = (pre ++ [0x00, 0x55, 0xAA, 0x55, 0xAA, 0x55]) ++ bytes "TREVOR    " ++ [0, 0, 0] := by
    have : Scenario5_After_Run = [0x00, 0x55, 0xAA, 0x55, 0xAA, 0x55]
        ++ bytes "TREVOR    " ++ [0, 0, 0] := by decide
    rw [this]
    simp only [List.append_assoc]
  rw [hsplit, hpos, Stream_Write_At_middle _ _ _ _ (by decide), hout2]

/-! ## Claim about Scenario 5 of the header documentation -/

/-- C11, the failing input: Scenario 5 of the header documentation, a file of `0x210B`
zero bytes followed by `00 55 AA 55 AA 55 AA 55` and eleven zero bytes, with
`-b0x55AA55AA55 -T"TREVOR    "` and no `-z`. The marker has five bytes and is matched
at `0x210C .. 0x2110`; the text is written from `0x2111` on, over the bytes `AA 55` that
follow the match. The run returns 0 and leaves `00 55 AA 55 AA 55 54 52 45 56 4F 52 20
20 20 20 00 00 00` from `0x210B` on, on either width of `unsigned long`, which is not the
byte sequence the documentation shows. -/
theorem main_scenario5_output :
    (List.replicate 0x210B 0).length = 0x210B ∧
    main .bits32 [.i (bytes "build.bin"), .o (bytes "build_.bin"),
        .b (bytes "0x55AA55AA55"), .T (bytes "TREVOR    ")]
        (some (List.replicate 0x210B 0 ++ Scenario5_Before))
      = some ⟨0, some (List.replicate 0x210B 0 ++ Scenario5_After_Run)⟩ ∧
    main .bits64 [.i (bytes "build.bin"), .o (bytes "build_.bin"),
        .b (bytes "0x55AA55AA55"), .T (bytes "TREVOR    ")]
        (some (List.replicate 0x210B 0 ++ Scenario5_Before))
      = some ⟨0, some (List.replicate 0x210B 0 ++ Scenario5_After_Run)⟩ ∧
    (List.replicate 0x210B 0 ++ Scenario5_After_Run).drop 0x210B = Scenario5_After_Run ∧
    Scenario5_After_Run ≠ Scenario5_After_Documented := by
  have hzero : ∀ b ∈ List.replicate 0x210B 0, b ≠ 0x55 := by
    intro b hb
    rw [List.eq_of_mem_replicate hb]
    decide
  have hlen : (List.replicate 0x210B 0).length + 19 < 2 ^ 31 := by
    rw [List.length_replicate]
    decide
  refine ⟨List.length_replicate _ _, ?_, ?_, ?_, by decide⟩
  · exact scenario5_run .bits32 _ _ _ (by decide) (by decide) hzero hlen
  · exact scenario5_run .bits64 _ _ _ (by decide) (by decide) hzero hlen
  · have h := List.drop_left (List.replicate 0x210B 0) Scenario5_After_Run
    rw [List.length_replicate] at h
    exact h

end BinPatch
